import Mathlib

/-!
# Beamy ray tracer: embedding of `raytracer.h`, `raytracer.cpp` and the render loop of `main.cpp`

Conventions of the embedding.

* `float` values are elements of a linearly ordered field `K` (exact arithmetic: no rounding,
  no NaN, no infinities).  Every definition is computable and can be run at `K = ℚ`.
* `::sqrtf` is a parameter `sqrtf : K → K`; theorems that need it assume that it returns the
  non-negative square root of the value it is applied to (`IsSqrt`).
* `int` values are 32-bit: they are carried as `Int`, and every `int` addition and
  multiplication of the tile loops, of the render loop bounds and of the pixel offset is
  reduced by `wrapInt` to `[-2^31, 2^31)` (two's complement wrap-around). The conversion of an
  `int` to the 64-bit `size_t` of a vector size or index is `toSizeT` (reduction modulo `2^64`).
* `std::sort` is a parameter `sort`; the C++ standard fixes only that its result is a
  permutation of its input ordered by the comparator (`StdSortContract`), not the relative
  order of equivalent elements. The `std::sort` of GNU libstdc++ is modelled as `gnuSort`.
* An out-parameter `float& t` becomes an incoming value and a returned value.
* The header `tmath.hpp` (vectors, quaternions, `consts::Epsilon`) is not part of the sources:
  the vector operations are modelled below and `Epsilon` is a parameter.
* `::tanf` is a parameter `tanf : K → K`, and the matrix product of the `Ray` constructor,
  `(camera.getView() * v.normalized()).toVector3()`, is a parameter `viewDir`.
* The conversion `int(v)` of a `float` truncates towards zero (`floatToInt`, on a `FloorRing`).
* The pixel buffer `std::vector<unsigned char>` is a list of integers, zero-filled by `resize`.
-/

namespace Beamy

/-! ## Vector primitives (`tmath.hpp`) -/

/-- Modelled from the spec: the `Vector3` value type of the missing header `tmath.hpp`,
three `float` components. -/
structure Vector3 (K : Type) where
  x : K
  y : K
  z : K
deriving DecidableEq

/-- Modelled from the spec: the `Quaternion` value type of the missing header `tmath.hpp`. -/
structure Quaternion (K : Type) where
  x : K
  y : K
  z : K
  w : K
deriving DecidableEq

/-- Modelled from the spec: the `Vector4` value type of the missing header `tmath.hpp`. -/
structure Vector4 (K : Type) where
  x : K
  y : K
  z : K
  w : K
deriving DecidableEq

section Defs

variable {K : Type} [LinearOrderedField K]

/-- Modelled from the spec: `Vector3(float)` of `tmath.hpp`, the same value in every component. -/
def Vector3.splat (v : K) : Vector3 K := ⟨v, v, v⟩

/-- Modelled from the spec: `Vector3::operator+` of `tmath.hpp`, componentwise sum. -/
def Vector3.add (a b : Vector3 K) : Vector3 K := ⟨a.x + b.x, a.y + b.y, a.z + b.z⟩

/-- Modelled from the spec: `Vector3::operator-` of `tmath.hpp`, componentwise difference. -/
def Vector3.sub (a b : Vector3 K) : Vector3 K := ⟨a.x - b.x, a.y - b.y, a.z - b.z⟩

/-- Modelled from the spec: `Vector3::operator*(float)` of `tmath.hpp`, scaling by a scalar. -/
def Vector3.scale (a : Vector3 K) (s : K) : Vector3 K := ⟨a.x * s, a.y * s, a.z * s⟩

/-- Modelled from the spec: `Vector3::operator*(Vector3)` of `tmath.hpp`, componentwise
product (used for `albedo × lighting`). -/
def Vector3.mul (a b : Vector3 K) : Vector3 K := ⟨a.x * b.x, a.y * b.y, a.z * b.z⟩

/-- Modelled from the spec: `Vector3::dot` of `tmath.hpp`, the Euclidean inner product. -/
def Vector3.dot (a b : Vector3 K) : K := a.x * b.x + a.y * b.y + a.z * b.z

/-- Modelled from the spec: `Vector3::length` of `tmath.hpp`, the square root of `v.dot(v)`. -/
def Vector3.length (sqrtf : K → K) (a : Vector3 K) : K := sqrtf (a.dot a)

/-- Modelled from the spec: `Vector3::normalized` of `tmath.hpp`, the vector divided by its
length. -/
def Vector3.normalized (sqrtf : K → K) (a : Vector3 K) : Vector3 K :=
  ⟨a.x / a.length sqrtf, a.y / a.length sqrtf, a.z / a.length sqrtf⟩

/-- Modelled from the spec: `std::clamp(v, lo, hi)` of the C++ standard library. -/
def clamp {α : Type} [LinearOrder α] (v lo hi : α) : α :=
  if v < lo then lo else if hi < v then hi else v

/-- The value `sqrtf x` is the non-negative square root of `x`. -/
def IsSqrt (sqrtf : K → K) (x : K) : Prop := 0 ≤ sqrtf x ∧ sqrtf x * sqrtf x = x

/-! ## Object model (`raytracer.h`) -/

/-- The `enum ObjectType` of `raytracer.h`. -/
inductive ObjectType where
  | TObject
  | TLight
deriving DecidableEq

/-- The `struct Ray`: origin and direction. -/
structure Ray (K : Type) where
  origin : Vector3 K
  direction : Vector3 K

/-- The method `Ray::at`: `origin + direction * t`. -/
def Ray.at (ray : Ray K) (t : K) : Vector3 K := ray.origin.add (ray.direction.scale t)

/-- The `struct Object`: the fields shared by every primitive. -/
structure Object (K : Type) where
  position : Vector3 K
  scale : Vector3 K
  color : Vector3 K
  rotation : Quaternion K

/-- The `struct Sphere : Object`. -/
structure Sphere (K : Type) extends Object K where
  radius : K

/-- The `struct Plane : Object`. -/
structure Plane (K : Type) extends Object K where
  norm : Vector3 K

/-- The `struct Light : Object`. -/
structure Light (K : Type) extends Object K where
  intensity : K

/-- The `struct Camera : Object`. -/
structure Camera (K : Type) extends Object K where
  fov : K

/-- The dynamic type behind an `Object*` stored in the scene: a plain `Object` or one of its
subclasses that the scene can hold. -/
inductive Obj (K : Type) where
  | object (o : Object K)
  | sphere (s : Sphere K)
  | plane (p : Plane K)
  | light (l : Light K)

/-- The `Object` base sub-object of a stored primitive. -/
def Obj.base : Obj K → Object K
  | .object o => o
  | .sphere s => s.toObject
  | .plane p => p.toObject
  | .light l => l.toObject

/-- Virtual `type()`: `TLight` for a `Light`, `TObject` (inherited) for everything else. -/
def Obj.type : Obj K → ObjectType
  | .light _ => ObjectType.TLight
  | _ => ObjectType.TObject

/-! ## Primitive intersection (`raytracer.cpp`) -/

/-- The coefficient `a = d·d` of `Sphere::intersects`. -/
def Sphere.qa (_s : Sphere K) (ray : Ray K) : K := ray.direction.dot ray.direction

/-- The coefficient `b = 2 (o - p)·d` of `Sphere::intersects`. -/
def Sphere.qb (s : Sphere K) (ray : Ray K) : K :=
  2 * (ray.origin.sub s.position).dot ray.direction

/-- The coefficient `c = (o - p)·(o - p) - r²` of `Sphere::intersects`. -/
def Sphere.qc (s : Sphere K) (ray : Ray K) : K :=
  (ray.origin.sub s.position).dot (ray.origin.sub s.position) - s.radius * s.radius

/-- The discriminant `dis = b*b - 4*a*c` of `Sphere::intersects`. -/
def Sphere.dis (s : Sphere K) (ray : Ray K) : K :=
  s.qb ray * s.qb ray - 4 * s.qa ray * s.qc ray

/-- The method `Sphere::intersects(ray, t)`: the returned flag and the value left in `t`. -/
def Sphere.intersects (sqrtf : K → K) (s : Sphere K) (ray : Ray K) (_t : K) : Bool × K :=
  let oc := ray.origin.sub s.position
  let a := ray.direction.dot ray.direction
  let b := 2 * oc.dot ray.direction
  let c := oc.dot oc - s.radius * s.radius
  let dis := b * b - 4 * a * c
  if dis < 0 then (false, -1)
  else (true, (-b - sqrtf dis) / (2 * a))

/-- The method `Sphere::normal(ray, t)`. -/
def Sphere.normal (sqrtf : K → K) (s : Sphere K) (ray : Ray K) (t : K) : Vector3 K :=
  ((ray.at t).sub s.position).normalized sqrtf

/-- The method `Plane::intersects(ray, t)`: the returned flag and the value left in `t`. -/
def Plane.intersects (Epsilon : K) (p : Plane K) (ray : Ray K) (_t : K) : Bool × K :=
  let denom := p.norm.dot ray.direction
  if denom > Epsilon then
    let p0l0 := p.position.sub ray.origin
    let t := p0l0.dot p.norm / denom
    if t ≥ 0 then (true, t) else (false, -1)
  else (false, -1)

/-- The method `Plane::normal(ray, t)`. -/
def Plane.normal (sqrtf : K → K) (p : Plane K) (_ray : Ray K) (_t : K) : Vector3 K :=
  (p.norm.normalized sqrtf).scale (-1)

/-- Virtual `intersects(ray, t)`: `Object::intersects` (inherited by `Light`) returns `false`
and leaves `t` untouched; `Sphere` and `Plane` override it. -/
def Obj.intersects (sqrtf : K → K) (Epsilon : K) (ob : Obj K) (ray : Ray K) (t : K) : Bool × K :=
  match ob with
  | .object _ => (false, t)
  | .sphere s => s.intersects sqrtf ray t
  | .plane p => p.intersects Epsilon ray t
  | .light _ => (false, t)

/-- Virtual `normal(ray, t)`: `Object::normal` (inherited by `Light`) returns `Vector3(0)`. -/
def Obj.normal (sqrtf : K → K) (ob : Obj K) (ray : Ray K) (t : K) : Vector3 K :=
  match ob with
  | .object _ => Vector3.splat 0
  | .sphere s => s.normal sqrtf ray t
  | .plane p => p.normal sqrtf ray t
  | .light _ => Vector3.splat 0

/-! ## Scene and nearest-hit query (`raytracer.cpp`) -/

/-- The `class Scene`: the owned primitives in insertion order, the camera, the image size and the
ambient colour. -/
structure Scene (K : Type) where
  m_objects : List (Obj K)
  m_camera : Camera K
  m_width : Int
  m_height : Int
  ambient : Vector3 K

/-- The method `Scene::add`: `push_back` on the primitive list. -/
def Scene.add (scene : Scene K) (object : Obj K) : Scene K :=
  { scene with m_objects := scene.m_objects ++ [object] }

/-- The alias `using DistPair = std::pair<size_t, float>`. -/
abbrev DistPair (K : Type) := Nat × K

/-- The type of `std::sort` applied to a `std::vector<DistPair>`: comparator and input to
output. -/
abbrev SortFn (K : Type) :=
  (DistPair K → DistPair K → Bool) → List (DistPair K) → List (DistPair K)

/-- The comparator lambda handed to `std::sort`: `a.second < b.second`. -/
def distLess (a b : DistPair K) : Bool := decide (a.2 < b.2)

/-- What the C++ standard promises of `std::sort(first, last, comp)` for the comparator of
`Scene::intersects`: the result is a permutation of the input and no element is followed by a
strictly smaller one. -/
def StdSortContract (sort : SortFn K) : Prop :=
  ∀ l : List (DistPair K),
    (sort distLess l).Perm l ∧ (sort distLess l).Pairwise (fun a b => distLess b a = false)

/-- A sort is stable when every sublist of the input that is already in order is still a
sublist of the output; `std::sort` does not promise this. -/
def StableSort (sort : SortFn K) : Prop :=
  ∀ l c : List (DistPair K),
    c.Pairwise (fun a b => distLess b a = false) → c.Sublist l → c.Sublist (sort distLess l)

/-- The scan loop of `Scene::intersects`: `i` is the running index, `st` the shared `float st`,
and the result is the `distances` vector in `push_back` order. -/
def Scene.collect (sqrtf : K → K) (Epsilon : K) (ray : Ray K) :
    List (Obj K) → Nat → K → List (DistPair K)
  | [], _, _ => []
  | ob :: rest, i, st =>
    if ob.type ≠ ObjectType.TLight then
      let r := ob.intersects sqrtf Epsilon ray st
      if r.1 then (i, r.2) :: Scene.collect sqrtf Epsilon ray rest (i + 1) r.2
      else Scene.collect sqrtf Epsilon ray rest (i + 1) r.2
    else Scene.collect sqrtf Epsilon ray rest (i + 1) st

/-- The outcome of `Scene::intersects`: the returned flag, the value left in `t`, and the value
stored through `hitObj`, where `some k` stands for the pointer `m_objects[k].get()` and `none`
for `nullptr`. -/
structure HitResult (K : Type) where
  ret : Bool
  t : K
  hitObj : Option Nat

/-- The method `Scene::intersects(ray, t, hitObj)`: the scan, the sort and the selection of
`distances[0]`. -/
def Scene.intersects (sort : SortFn K) (sqrtf : K → K) (Epsilon : K) (scene : Scene K)
    (ray : Ray K) : HitResult K :=
  let distances := Scene.collect sqrtf Epsilon ray scene.m_objects 0 0
  let distances := sort distLess distances
  match distances with
  | d :: _ => ⟨true, d.2, some d.1⟩
  | [] => ⟨false, -1, none⟩

/-- A conforming `std::sort`: insertion sort, which keeps tied entries in their input order. -/
def insertionSortBy (cmp : DistPair K → DistPair K → Bool) (l : List (DistPair K)) :
    List (DistPair K) :=
  List.insertionSort (fun a b => cmp b a = false) l

/-! ## The `std::sort` of GNU libstdc++ (`bits/stl_algo.h`)

The C++ standard library is not part of the repository; the definitions below follow the
implementation that `g++` links, with iterators as indices into the vector. A result `none`
means that the run leaves the modelled part: the heap-sort fallback of `__introsort_loop`, or
an unguarded scan that would walk off the vector (which a strict weak ordering never does). -/

/-- The comparison `comp(a, b)` of the elements at two iterators. -/
def cmpAt {α : Type} (cmp : α → α → Bool) (l : List α) (i j : Nat) : Bool :=
  match l[i]?, l[j]? with
  | some a, some b => cmp a b
  | _, _ => false

/-- The exchange `std::iter_swap(a, b)`. -/
def iter_swap {α : Type} (l : List α) (i j : Nat) : List α :=
  match l[i]?, l[j]? with
  | some a, some b => (l.set i b).set j a
  | _, _ => l

/-- The routine `__move_median_to_first(result, a, b, c, comp)`. -/
def move_median_to_first {α : Type} (cmp : α → α → Bool) (l : List α) (result a b c : Nat) :
    List α :=
  if cmpAt cmp l a b then
    if cmpAt cmp l b c then iter_swap l result b
    else if cmpAt cmp l a c then iter_swap l result c
    else iter_swap l result a
  else if cmpAt cmp l a c then iter_swap l result a
  else if cmpAt cmp l b c then iter_swap l result c
  else iter_swap l result b

/-- The scan `while (comp(first, pivot)) ++first` of `__unguarded_partition`. -/
def scanUp {α : Type} (cmp : α → α → Bool) (l : List α) (pivot : Nat) : Nat → Nat → Option Nat
  | 0, _ => none
  | fuel + 1, first =>
    if cmpAt cmp l first pivot then scanUp cmp l pivot fuel (first + 1) else some first

/-- The scan `while (comp(pivot, last)) --last` of `__unguarded_partition`. -/
def scanDown {α : Type} (cmp : α → α → Bool) (l : List α) (pivot : Nat) : Nat → Option Nat
  | 0 => if cmpAt cmp l pivot 0 then none else some 0
  | last + 1 =>
    if cmpAt cmp l pivot (last + 1) then scanDown cmp l pivot last else some (last + 1)

/-- The routine `__unguarded_partition(first, last, pivot, comp)`: the vector after the swaps
and the returned cut. -/
def unguarded_partition {α : Type} (cmp : α → α → Bool) (pivot : Nat) :
    Nat → List α → Nat → Nat → Option (List α × Nat)
  | 0, _, _, _ => none
  | fuel + 1, l, first, last =>
    match scanUp cmp l pivot (l.length + 1) first with
    | none => none
    | some first1 =>
      match last with
      | 0 => none
      | last0 + 1 =>
        match scanDown cmp l pivot last0 with
        | none => none
        | some last1 =>
          if first1 < last1 then
            unguarded_partition cmp pivot fuel (iter_swap l first1 last1) (first1 + 1) last1
          else some (l, first1)

/-- The routine `__unguarded_partition_pivot(first, last, comp)`. -/
def unguarded_partition_pivot {α : Type} (cmp : α → α → Bool) (l : List α) (first last : Nat) :
    Option (List α × Nat) :=
  let mid := first + (last - first) / 2
  unguarded_partition cmp first (l.length + 1)
    (move_median_to_first cmp l first (first + 1) mid (last - 1)) (first + 1) last

/-- The routine `__introsort_loop(first, last, depth_limit, comp)` with `_S_threshold = 16`;
the recursion is on `depth_limit`, which the loop decrements at every round. -/
def introsort_loop {α : Type} (cmp : α → α → Bool) : Nat → List α → Nat → Nat → Option (List α)
  | 0, l, first, last => if last - first > 16 then none else some l
  | depth + 1, l, first, last =>
    if last - first > 16 then
      match unguarded_partition_pivot cmp l first last with
      | none => none
      | some (l1, cut) =>
        match introsort_loop cmp depth l1 cut last with
        | none => none
        | some l2 => introsort_loop cmp depth l2 first cut
    else some l

/-- The loop of `__unguarded_linear_insert`: `val` is the element being inserted and `last` the
hole; `while (comp(val, next)) { *last = *next; last = next; --next; } *last = val`. -/
def unguarded_linear_insert {α : Type} (cmp : α → α → Bool) (val : α) :
    List α → Nat → Option (List α)
  | _, 0 => none
  | l, last + 1 =>
    match l[last]? with
    | none => none
    | some nx =>
      if cmp val nx then unguarded_linear_insert cmp val (l.set (last + 1) nx) last
      else some (l.set (last + 1) val)

/-- One round of the loop of `__insertion_sort` for the iterator `i`: an element smaller than
`*first` is moved to the front by `move_backward`, any other is inserted by
`__unguarded_linear_insert`. -/
def insertion_step {α : Type} (cmp : α → α → Bool) (first : Nat) (l : List α) (i : Nat) :
    Option (List α) :=
  match l[i]? with
  | none => none
  | some val =>
    if cmpAt cmp l i first then
      some (l.take first ++ val :: ((l.take i).drop first ++ l.drop (i + 1)))
    else unguarded_linear_insert cmp val l i

/-- The routine `__insertion_sort(first, last, comp)`: the rounds `i = first + 1, ..., last - 1`
are `insertion_rounds` started at `first + 1` with `last - first - 1` rounds to go. -/
def insertion_rounds {α : Type} (cmp : α → α → Bool) (first : Nat) :
    Nat → Nat → List α → Option (List α)
  | 0, _, l => some l
  | rounds + 1, i, l =>
    match insertion_step cmp first l i with
    | none => none
    | some l1 => insertion_rounds cmp first rounds (i + 1) l1

/-- The routine `__unguarded_insertion_sort(first, last, comp)`, with `last - first` rounds. -/
def unguarded_insertion_rounds {α : Type} (cmp : α → α → Bool) :
    Nat → Nat → List α → Option (List α)
  | 0, _, l => some l
  | rounds + 1, i, l =>
    match l[i]? with
    | none => none
    | some val =>
      match unguarded_linear_insert cmp val l i with
      | none => none
      | some l1 => unguarded_insertion_rounds cmp rounds (i + 1) l1

/-- The routine `__final_insertion_sort(first, last, comp)`. -/
def final_insertion_sort {α : Type} (cmp : α → α → Bool) (l : List α) (first last : Nat) :
    Option (List α) :=
  if last - first > 16 then
    match insertion_rounds cmp first 15 (first + 1) l with
    | none => none
    | some l1 => unguarded_insertion_rounds cmp (last - (first + 16)) (first + 16) l1
  else insertion_rounds cmp first (last - first - 1) (first + 1) l

/-- The routine `std::__sort(first, last, comp)` on the whole vector:
`__introsort_loop(first, last, __lg(last - first) * 2, comp)` and then
`__final_insertion_sort(first, last, comp)`. -/
def gnuSortRun {α : Type} (cmp : α → α → Bool) (l : List α) : Option (List α) :=
  if l.length = 0 then some l
  else
    match introsort_loop cmp (Nat.log2 l.length * 2) l 0 l.length with
    | none => none
    | some l1 => final_insertion_sort cmp l1 0 l.length

/-- The `std::sort` of GNU libstdc++ as a function on the `distances` vector; a run that leaves
the modelled part returns the vector unchanged. -/
def gnuSort (cmp : DistPair K → DistPair K → Bool) (l : List (DistPair K)) : List (DistPair K) :=
  (gnuSortRun cmp l).getD l

/-! ## Shading (`main.cpp`, the loop over lights) -/

/-- The term added to `lighting` for one light, as written in the render loop:
`light->color * (nl * l->intensity / dist * dist)` with `L = light->position - ip`,
`dist = L.length()`, `L = L.normalized()` and `nl = std::clamp(in.dot(L), 0.0f, 1.0f)`. -/
def lightTerm (sqrtf : K → K) (ip inn : Vector3 K) (l : Light K) : Vector3 K :=
  let L := l.position.sub ip
  let dist := L.length sqrtf
  let L := L.normalized sqrtf
  let nl := clamp (inn.dot L) 0 1
  l.color.scale (nl * l.intensity / dist * dist)

/-- The per-light term in the words of the specification:
`light.color × light.intensity × max(0, N·L) / dist²`, with `L` the unit vector from the hit
point to the light and `dist` their distance. -/
def lightTermSpec (sqrtf : K → K) (ip inn : Vector3 K) (l : Light K) : Vector3 K :=
  let L := l.position.sub ip
  let dist := L.length sqrtf
  let L := L.normalized sqrtf
  l.color.scale (l.intensity * max 0 (inn.dot L) / (dist * dist))

/-- The loop over `scene.objects()` that accumulates `lighting`, starting from the ambient
colour; objects whose `type()` is not `TLight` are skipped. -/
def accumulateLighting (sqrtf : K → K) (objects : List (Obj K)) (ambient ip inn : Vector3 K) :
    Vector3 K :=
  objects.foldl
    (fun lighting ob =>
      match ob with
      | .light l => lighting.add (lightTerm sqrtf ip inn l)
      | _ => lighting)
    ambient

/-! ## Tiles and the render loop (`main.cpp`) -/

/-- The value that a 32-bit `int` holds after an arithmetic result `n`: reduction to the range
`[-2147483648, 2147483647]` in two's complement. Signed overflow is undefined behaviour in C++;
wrap-around is what the usual targets do. -/
def wrapInt (n : Int) : Int := (n + 2147483648) % 4294967296 - 2147483648

/-- The conversion of an `int` to the 64-bit `size_t` of `pixels.resize(n)` and `pixels[i]`:
reduction modulo `2^64`. -/
def toSizeT (n : Int) : Nat := (n % 18446744073709551616).toNat

/-- The `struct RenderTile` of `main.cpp`. -/
structure RenderTile where
  x : Int
  y : Int
  width : Int
  height : Int
deriving DecidableEq

/-- The inner tile loop `for (int x = x0; x < width; x += tileSize)` of row `y`, the loop
variable being a 32-bit `int`; every test of the loop condition uses one unit of `fuel`, and
`none` means the fuel ran out. -/
def tileRow : Nat → Int → Int → Int → Int → Option (List RenderTile)
  | 0, _, _, _, _ => none
  | fuel + 1, width, tileSize, y, x =>
    if x < width then
      (tileRow fuel width tileSize y (wrapInt (x + tileSize))).map
        (fun rest => ⟨x, y, tileSize, tileSize⟩ :: rest)
    else some []

/-- The outer tile loop `for (int y = y0; y < height; y += tileSize)`, the loop variable being
a 32-bit `int`, each row generated by `tileRow` from `x = 0`; `tiles.push_back` keeps the tiles
in generation order. -/
def tileRows : Nat → Int → Int → Int → Int → Option (List RenderTile)
  | 0, _, _, _, _ => none
  | fuel + 1, width, height, tileSize, y =>
    if y < height then
      match tileRow fuel width tileSize y 0 with
      | none => none
      | some row =>
        (tileRows fuel width height tileSize (wrapInt (y + tileSize))).map
          (fun rest => row ++ rest)
    else some []

/-- The tile generation of `main`: both loops start at `0`. -/
def generateTiles (fuel : Nat) (width height tileSize : Int) : Option (List RenderTile) :=
  tileRows fuel width height tileSize 0

/-- The values taken by the variable of `for (int v = lo; v < hi; v++)`, in order. -/
def intRange (lo hi : Int) : List Int :=
  (List.range (hi - lo).toNat).map (fun (k : Nat) => lo + Int.ofNat k)

/-- A pixel coordinate `(x, y)` of the render loop. -/
structure Pixel where
  x : Int
  y : Int
deriving DecidableEq

/-- The bounds check of the render loop: `x < 0 || x >= width || y < 0 || y >= height`. -/
def outOfBounds (width height x y : Int) : Bool :=
  decide (x < 0) || decide (x ≥ width) || decide (y < 0) || decide (y ≥ height)

/-- The pixels of one tile that the render loop processes (those not skipped by `continue`),
in processing order: `y` in the outer loop, `x` in the inner loop; the loop bounds
`rt.y + rt.height` and `rt.x + rt.width` are 32-bit `int` sums. -/
def tilePixels (width height : Int) (rt : RenderTile) : List Pixel :=
  (intRange rt.y (wrapInt (rt.y + rt.height))).flatMap (fun y =>
    ((intRange rt.x (wrapInt (rt.x + rt.width))).filter
      (fun x => !outOfBounds width height x y)).map (fun x => ⟨x, y⟩))

/-- The tiles reached by `for (int k = 0; k < tiles.size(); k++)`, in order. The counter is a
32-bit `int` compared with the `size_t` size: after `k = 2147483647` the wrapped counter
converts to `2^64 - 2^31`, which no vector size exceeds, so the loop ends after at most `2^31`
tiles. -/
def visitedTiles (tiles : List RenderTile) : List RenderTile := tiles.take 2147483648

/-- The pixels processed by the whole render loop over `tiles`, in processing order. -/
def renderedPixels (width height : Int) (tiles : List RenderTile) : List Pixel :=
  (visitedTiles tiles).flatMap (tilePixels width height)

/-- The index `int i = (x + y * scene.width()) * 3` of the first byte of pixel `(x, y)`, every
operation being a 32-bit `int` operation. -/
def pixelOffset (width x y : Int) : Int := wrapInt (wrapInt (x + wrapInt (y * width)) * 3)

/-- The `int` value `scene.width() * scene.height() * 3` handed to `pixels.resize`. -/
def bufferLength (width height : Int) : Int := wrapInt (wrapInt (width * height) * 3)

/-- The `size_t` index of the store `pixels[i + c]`: the 32-bit `int` sum `i + c` converted to
`size_t`. -/
def byteIndex (i c : Int) : Nat := toSizeT (wrapInt (i + c))

/-! ## Primary rays (`Ray::Ray(int, int, Scene&)`) -/

/-- The camera-space coordinate `sx` of the `Ray` constructor:
`((((float(x) + 0.5f) / w) * 2.0f - 1.0f) * aspect) * fova` with `w = float(width)`,
`h = float(height)`, `fova = tanf(fov / 2.0f)` and `aspect = w / h`. -/
def Ray.sx (tanf : K → K) (scene : Scene K) (x : Int) : K :=
  let w : K := (scene.m_width : K)
  let h : K := (scene.m_height : K)
  let fova := tanf (scene.m_camera.fov / 2)
  let aspect := w / h
  (((((x : K) + 1 / 2) / w) * 2 - 1) * aspect) * fova

/-- The camera-space coordinate `sy` of the `Ray` constructor:
`(1.0f - ((float(y) + 0.5f) / h) * 2.0f) * fova`. -/
def Ray.sy (tanf : K → K) (scene : Scene K) (y : Int) : K :=
  let h : K := (scene.m_height : K)
  let fova := tanf (scene.m_camera.fov / 2)
  (1 - (((y : K) + 1 / 2) / h) * 2) * fova

/-- The constructor `Ray::Ray(int x, int y, Scene& scene)`. The matrix and `Vector4` operations
of `tmath.hpp` are not among the sources, so `viewDir camera v` stands for
`(camera.getView() * v.normalized()).toVector3()`. -/
def Ray.ofPixel (tanf : K → K) (viewDir : Camera K → Vector4 K → Vector3 K) (x y : Int)
    (scene : Scene K) : Ray K :=
  { direction := viewDir scene.m_camera ⟨Ray.sx tanf scene x, Ray.sy tanf scene y, -1, 0⟩
    origin := scene.m_camera.position.scale (-1) }

/-- The normalised device coordinate of pixel column `x` in the words of the specification:
`2 (x + 0.5) / width - 1`. -/
def ndcx (width x : Int) : K := 2 * ((x : K) + 1 / 2) / (width : K) - 1

/-- The normalised device coordinate of pixel row `y` in the words of the specification:
`1 - 2 (y + 0.5) / height`. -/
def ndcy (height y : Int) : K := 1 - 2 * ((y : K) + 1 / 2) / (height : K)

/-! ## Per-pixel shading and the pixel buffer (`main.cpp`) -/

/-- The colour computed for one pixel from its primary ray: `Vector3 color(0.0f)`, replaced by
`hit->color * lighting` when `scene.intersects` returns `true`. The result is `none` when `hit`
would not point to an object of the scene. -/
def shade (sort : SortFn K) (sqrtf : K → K) (Epsilon : K) (scene : Scene K) (ray : Ray K) :
    Option (Vector3 K) :=
  let res := Scene.intersects sort sqrtf Epsilon scene ray
  if res.ret then
    match res.hitObj with
    | some k =>
      match scene.m_objects[k]? with
      | some hit =>
        let ip := ray.at res.t
        let inn := hit.normal sqrtf ray res.t
        let lighting := accumulateLighting sqrtf scene.m_objects scene.ambient ip inn
        some (hit.base.color.mul lighting)
      | none => none
    | none => none
  else some (Vector3.splat 0)

/-- The conversion `int(v)` of a `float`: truncation towards zero. -/
def floatToInt [FloorRing K] (v : K) : Int := if 0 ≤ v then ⌊v⌋ else ⌈v⌉

/-- The byte written for a colour channel: `std::clamp(int(c * 255.0f), 0, 255)`. -/
def toByte [FloorRing K] (c : K) : Int := clamp (floatToInt (c * 255)) 0 255

/-- The three stores `pixels[i + 0] = r; pixels[i + 1] = g; pixels[i + 2] = b`; a store
outside the vector, undefined behaviour in C++, leaves the list unchanged. -/
def writePixel [FloorRing K] (pixels : List Int) (i : Int) (color : Vector3 K) : List Int :=
  ((pixels.set (byteIndex i 0) (toByte color.x)).set (byteIndex i 1) (toByte color.y)).set
    (byteIndex i 2) (toByte color.z)

/-- The body of the render loop for one pixel that passed the bounds check: build the primary
ray, shade it and store the three bytes. -/
def renderPixel [FloorRing K] (sort : SortFn K) (sqrtf : K → K) (Epsilon : K) (tanf : K → K)
    (viewDir : Camera K → Vector4 K → Vector3 K) (scene : Scene K) (pixels : List Int)
    (p : Pixel) : Option (List Int) :=
  (shade sort sqrtf Epsilon scene (Ray.ofPixel tanf viewDir p.x p.y scene)).map
    (fun color => writePixel pixels (pixelOffset scene.m_width p.x p.y) color)

/-- The render loop over `tiles`, starting from the zero-filled buffer made by
`pixels.resize(width * height * 3)`. -/
def render [FloorRing K] (sort : SortFn K) (sqrtf : K → K) (Epsilon : K) (tanf : K → K)
    (viewDir : Camera K → Vector4 K → Vector3 K) (scene : Scene K) (tiles : List RenderTile) :
    Option (List Int) :=
  (renderedPixels scene.m_width scene.m_height tiles).foldlM
    (renderPixel sort sqrtf Epsilon tanf viewDir scene)
    (List.replicate (toSizeT (bufferLength scene.m_width scene.m_height)) 0)

/-- The tiles in closed form: `ny` rows of `nx` tiles, row after row, the tile in column `i` of
row `j` having its origin at `(i * tileSize, j * tileSize)`. -/
def tileGrid (nx ny : Nat) (tileSize : Int) : List RenderTile :=
  (List.range ny).flatMap (fun (j : Nat) =>
    (List.range nx).map (fun (i : Nat) =>
      ⟨Int.ofNat i * tileSize, Int.ofNat j * tileSize, tileSize, tileSize⟩))

/-! ## Concrete inputs over `ℚ` -/

/-- A computable square root on `ℚ` used to run the model: exact on squares of rationals. -/
def sqrtQ (x : ℚ) : ℚ := (Nat.sqrt x.num.toNat : ℚ) / (Nat.sqrt x.den : ℚ)

/-- The value used for `consts::Epsilon` when running the model. -/
def epsQ : ℚ := 1 / 1000000

/-- The default `Object()` placed at `p`: unit scale, white colour, identity rotation. -/
def objectAt (p : Vector3 ℚ) : Object ℚ := ⟨p, Vector3.splat 1, Vector3.splat 1, ⟨0, 0, 0, 1⟩⟩

/-- A ray from the origin looking down the negative z axis. -/
def rayDownZ : Ray ℚ := ⟨⟨0, 0, 0⟩, ⟨0, 0, -1⟩⟩

/-- A plane `z = -5` whose `norm` points along the ray, hit by `rayDownZ` at `t = 5`. -/
def planeFar : Plane ℚ := { objectAt ⟨0, 0, -5⟩ with norm := ⟨0, 0, -1⟩ }

/-- A unit sphere centred at `(0, 0, -3)`, hit by `rayDownZ` at `t = 2`. -/
def sphereNear : Sphere ℚ := { objectAt ⟨0, 0, -3⟩ with radius := 1 }

/-- A light placed on the ray, between the origin and the sphere. -/
def lampOnRay : Light ℚ := { objectAt ⟨0, 0, -1⟩ with intensity := 1 }

/-- A default camera at the origin. -/
def cameraQ : Camera ℚ := { objectAt ⟨0, 0, 0⟩ with fov := 1 }

/-- A white light of intensity `1` at `(0, 2, 0)`, at distance `2` straight above the origin. -/
def lampAbove : Light ℚ := { objectAt ⟨0, 2, 0⟩ with intensity := 1 }

/-- A white light of intensity `1` at `(0, -2, 0)`, at distance `2` straight below the origin. -/
def lampBelow : Light ℚ := { objectAt ⟨0, -2, 0⟩ with intensity := 1 }

/-- A value for `tanf` when running the model: `tan(fov / 2) = 1`, a field of view of 90°. -/
def tanUnit : ℚ → ℚ := fun _ => 1

/-- A value for the view transform when running the model: the unrotated camera, which leaves
the camera-space direction as it is (normalisation left out). -/
def viewForward : Camera ℚ → Vector4 ℚ → Vector3 ℚ := fun _ v => ⟨v.x, v.y, v.z⟩

/-- A camera placed at `(0, 0, 5)`. -/
def cameraBack : Camera ℚ := { objectAt ⟨0, 0, 5⟩ with fov := 1 }

/-- An empty `4 × 4` scene seen from `cameraBack`, with a white ambient colour. -/
def sceneEmpty : Scene ℚ := ⟨[], cameraBack, 4, 4, ⟨1, 1, 1⟩⟩

/-- A scene with a light, a plane and a sphere, added in that order. -/
def sceneMixed : Scene ℚ :=
  ⟨[Obj.light lampOnRay, Obj.plane planeFar, Obj.sphere sphereNear], cameraQ, 4, 4, ⟨0, 0, 0⟩⟩

/-- The plane `planeFar` again, coloured red. -/
def planeFarRed : Plane ℚ := { planeFar with color := ⟨1, 0, 0⟩ }

/-- A scene without lights and with a white ambient colour, holding only the red plane. -/
def sceneUnlit : Scene ℚ := ⟨[Obj.plane planeFarRed], cameraQ, 4, 4, ⟨1, 1, 1⟩⟩

/-- A scene holding two coincident planes: the white one added first, the red one second. -/
def sceneTwins : Scene ℚ :=
  ⟨[Obj.plane planeFar, Obj.plane planeFarRed], cameraQ, 4, 4, ⟨0, 0, 0⟩⟩

/-- A scene holding seventeen coincident planes: the white one added first, then sixteen red
ones. -/
def sceneSeventeen : Scene ℚ :=
  ⟨Obj.plane planeFar :: List.replicate 16 (Obj.plane planeFarRed), cameraQ, 4, 4, ⟨0, 0, 0⟩⟩

/-- A unit sphere centred at `(5, 0, -3)`, missed by `rayDownZ`. -/
def sphereAside : Sphere ℚ := { objectAt ⟨5, 0, -3⟩ with radius := 1 }

/-- A unit sphere centred at `(0, 0, 3)`, wholly behind the origin of `rayDownZ`. -/
def sphereBehind : Sphere ℚ := { objectAt ⟨0, 0, 3⟩ with radius := 1 }

/-- A scene with a light on the ray and a sphere off the ray. -/
def sceneMiss : Scene ℚ :=
  ⟨[Obj.light lampOnRay, Obj.sphere sphereAside], cameraQ, 4, 4, ⟨0, 0, 0⟩⟩

end Defs

/-! ## Lemmas on the nearest-hit query -/

section SceneLemmas

variable {K : Type} [LinearOrderedField K]

theorem distLess_false_iff (a b : DistPair K) : distLess b a = false ↔ a.2 ≤ b.2 := by
  simp [distLess]

theorem Obj.intersects_hit_indep (sqrtf : K → K) (Epsilon : K) (ob : Obj K) (ray : Ray K)
    (st st' : K) (h : (ob.intersects sqrtf Epsilon ray st).1 = true) :
    ob.intersects sqrtf Epsilon ray st' = ob.intersects sqrtf Epsilon ray st := by
  cases ob <;> simp_all [Obj.intersects, Sphere.intersects, Plane.intersects]

theorem Scene.mem_collect (sqrtf : K → K) (Epsilon : K) (ray : Ray K) (objs : List (Obj K)) :
    ∀ (i : Nat) (st : K) (k : Nat) (t : K),
      (k, t) ∈ Scene.collect sqrtf Epsilon ray objs i st ↔
        ∃ j ob, k = i + j ∧ objs[j]? = some ob ∧ ob.type ≠ ObjectType.TLight ∧
          ∀ st', ob.intersects sqrtf Epsilon ray st' = (true, t) := by
  induction objs with
  | nil => intro i st k t; simp [Scene.collect]
  | cons ob rest ih =>
    intro i st k t
    have step : ∀ st₁, (k, t) ∈ Scene.collect sqrtf Epsilon ray rest (i + 1) st₁ ↔
        ∃ j ob', k = i + (j + 1) ∧ (ob :: rest)[j + 1]? = some ob' ∧
          ob'.type ≠ ObjectType.TLight ∧
          ∀ st', ob'.intersects sqrtf Epsilon ray st' = (true, t) := by
      intro st₁
      rw [ih (i + 1) st₁ k t]
      constructor
      · rintro ⟨j, ob', hk, hj, h⟩
        exact ⟨j, ob', by omega, by simpa using hj, h⟩
      · rintro ⟨j, ob', hk, hj, h⟩
        exact ⟨j, ob', by omega, by simpa using hj, h⟩
    have split : (∃ j ob', k = i + j ∧ (ob :: rest)[j]? = some ob' ∧
          ob'.type ≠ ObjectType.TLight ∧
          ∀ st', ob'.intersects sqrtf Epsilon ray st' = (true, t)) ↔
        ((k = i ∧ ob.type ≠ ObjectType.TLight ∧
          ∀ st', ob.intersects sqrtf Epsilon ray st' = (true, t)) ∨
         ∃ j ob', k = i + (j + 1) ∧ (ob :: rest)[j + 1]? = some ob' ∧
          ob'.type ≠ ObjectType.TLight ∧
          ∀ st', ob'.intersects sqrtf Epsilon ray st' = (true, t)) := by
      constructor
      · rintro ⟨j, ob', hk, hj, h⟩
        cases j with
        | zero =>
          simp at hj
          subst hj
          exact Or.inl ⟨by omega, h⟩
        | succ j => exact Or.inr ⟨j, ob', hk, hj, h⟩
      · rintro (⟨hk, h⟩ | ⟨j, ob', hk, hj, h⟩)
        · exact ⟨0, ob, by omega, by simp, h⟩
        · exact ⟨j + 1, ob', hk, hj, h⟩
    rw [split]
    unfold Scene.collect
    by_cases hty : ob.type = ObjectType.TLight
    · simp only [hty, ne_eq, not_true_eq_false, if_false]
      rw [step]
      simp
    · simp only [hty, ne_eq, not_false_eq_true, if_true]
      by_cases hhit : (ob.intersects sqrtf Epsilon ray st).1 = true
      · simp only [hhit, if_true, List.mem_cons, Prod.mk.injEq]
        rw [step]
        constructor
        · rintro (⟨hk, ht⟩ | h)
          · left
            refine ⟨hk, trivial, fun st' => ?_⟩
            rw [Obj.intersects_hit_indep sqrtf Epsilon ob ray st st' hhit, ht]
            exact Prod.ext hhit.symm.symm rfl
          · exact Or.inr h
        · rintro (⟨hk, _, h⟩ | h)
          · left
            exact ⟨hk, by rw [h st]⟩
          · exact Or.inr h
      · simp only [hhit, Bool.false_eq_true, if_false]
        rw [step]
        constructor
        · intro h; exact Or.inr h
        · rintro (⟨_, _, h⟩ | h)
          · exact absurd (by rw [h st]) hhit
          · exact h

theorem Scene.intersects_cases
    (sort : SortFn K) (hsort : StdSortContract sort) (sqrtf : K → K) (Epsilon : K)
    (scene : Scene K) (ray : Ray K) :
    (Scene.collect sqrtf Epsilon ray scene.m_objects 0 0 = [] ∧
      Scene.intersects sort sqrtf Epsilon scene ray = ⟨false, -1, none⟩) ∨
    (∃ k t, Scene.intersects sort sqrtf Epsilon scene ray = ⟨true, t, some k⟩ ∧
      (k, t) ∈ Scene.collect sqrtf Epsilon ray scene.m_objects 0 0 ∧
      (k, t) :: (sort distLess (Scene.collect sqrtf Epsilon ray scene.m_objects 0 0)).tail =
        sort distLess (Scene.collect sqrtf Epsilon ray scene.m_objects 0 0) ∧
      ∀ e ∈ Scene.collect sqrtf Epsilon ray scene.m_objects 0 0, t ≤ e.2) := by
  obtain ⟨hperm, hpair⟩ := hsort (Scene.collect sqrtf Epsilon ray scene.m_objects 0 0)
  cases h : sort distLess (Scene.collect sqrtf Epsilon ray scene.m_objects 0 0) with
  | nil =>
    left
    rw [h] at hperm
    refine ⟨hperm.symm.eq_nil, ?_⟩
    simp only [Scene.intersects, h]
  | cons d rest =>
    right
    rw [h] at hperm hpair
    refine ⟨d.1, d.2, ?_, ?_, rfl, ?_⟩
    · simp only [Scene.intersects, h]
    · exact hperm.subset (List.mem_cons_self _ _)
    · intro e he
      have he' : e ∈ d :: rest := hperm.symm.subset he
      rcases List.mem_cons.mp he' with rfl | hr
      · exact le_refl _
      · exact (distLess_false_iff d e).mp ((List.pairwise_cons.mp hpair).1 e hr)

theorem Scene.collect_index_increasing (sqrtf : K → K) (Epsilon : K) (ray : Ray K)
    (objs : List (Obj K)) :
    ∀ (i : Nat) (st : K),
      (Scene.collect sqrtf Epsilon ray objs i st).Pairwise (fun a b => a.1 < b.1) := by
  induction objs with
  | nil => intro i st; simp [Scene.collect]
  | cons ob rest ih =>
    intro i st
    unfold Scene.collect
    split
    · simp only
      split
      · refine List.pairwise_cons.mpr ⟨?_, ih _ _⟩
        rintro ⟨k, t⟩ hmem
        obtain ⟨j, _, hk, _⟩ := (Scene.mem_collect sqrtf Epsilon ray rest _ _ k t).mp hmem
        simp only
        omega
      · exact ih _ _
    · exact ih _ _

theorem pair_sublist_of_pairwise {α : Type} {R : α → α → Prop} (hasym : ∀ a b, R a b → ¬ R b a) :
    ∀ (l : List α), l.Pairwise R → ∀ a b, a ∈ l → b ∈ l → R a b → [a, b].Sublist l := by
  intro l
  induction l with
  | nil => intro _ a b ha; simp at ha
  | cons x xs ih =>
    intro hp a b ha hb hab
    obtain ⟨hx, hxs⟩ := List.pairwise_cons.mp hp
    rcases List.mem_cons.mp ha with rfl | ha'
    · rcases List.mem_cons.mp hb with rfl | hb'
      · exact absurd hab (hasym _ _ hab)
      · exact List.Sublist.cons₂ _ (List.singleton_sublist.mpr hb')
    · rcases List.mem_cons.mp hb with rfl | hb'
      · exact absurd (hx a ha') (hasym _ _ hab)
      · exact List.Sublist.cons _ (ih hxs a b ha' hb' hab)

theorem sqrtQ_four : sqrtQ 4 = 2 := by
  have h : Nat.sqrt 4 = 2 := Nat.sqrt_eq 2
  simp [sqrtQ, h]

theorem planeFar_hit (st : ℚ) :
    (Obj.plane planeFar).intersects sqrtQ epsQ rayDownZ st = (true, 5) := by
  norm_num [Obj.intersects, Plane.intersects, planeFar, objectAt, rayDownZ, epsQ, Vector3.dot,
    Vector3.sub]

theorem sphereNear_hit (st : ℚ) :
    (Obj.sphere sphereNear).intersects sqrtQ epsQ rayDownZ st = (true, 2) := by
  norm_num [Obj.intersects, Sphere.intersects, sphereNear, objectAt, rayDownZ, Vector3.dot,
    Vector3.sub, sqrtQ_four]

theorem planeFarRed_hit (st : ℚ) :
    (Obj.plane planeFarRed).intersects sqrtQ epsQ rayDownZ st = (true, 5) := by
  norm_num [Obj.intersects, Plane.intersects, planeFarRed, planeFar, objectAt, rayDownZ, epsQ,
    Vector3.dot, Vector3.sub]

theorem sphereAside_miss (st : ℚ) :
    (Obj.sphere sphereAside).intersects sqrtQ epsQ rayDownZ st = (false, -1) := by
  norm_num [Obj.intersects, Sphere.intersects, sphereAside, objectAt, rayDownZ, Vector3.dot,
    Vector3.sub]

theorem sceneMixed_collect :
    Scene.collect sqrtQ epsQ rayDownZ sceneMixed.m_objects 0 0 = [(1, 5), (2, 2)] := by
  simp [sceneMixed, Scene.collect, Obj.type, planeFar_hit, sphereNear_hit]

theorem sceneTwins_collect :
    Scene.collect sqrtQ epsQ rayDownZ sceneTwins.m_objects 0 0 = [(0, 5), (1, 5)] := by
  simp [sceneTwins, Scene.collect, Obj.type, planeFar_hit, planeFarRed_hit]

theorem gnuSortRun_eq {α : Type} (cmp : α → α → Bool) (l : List α) (n d : Nat)
    (hlen : l.length = n) (hn : n ≠ 0) (hd : Nat.log2 n * 2 = d) :
    gnuSortRun cmp l =
      (introsort_loop cmp d l 0 n).bind (fun l1 => final_insertion_sort cmp l1 0 n) := by
  unfold gnuSortRun
  rw [hlen, if_neg hn, hd]
  cases introsort_loop cmp d l 0 n <;> rfl

theorem sceneSeventeen_collect :
    Scene.collect sqrtQ epsQ rayDownZ sceneSeventeen.m_objects 0 0 =
      [(0, 5), (1, 5), (2, 5), (3, 5), (4, 5), (5, 5), (6, 5), (7, 5), (8, 5), (9, 5), (10, 5),
      (11, 5), (12, 5), (13, 5), (14, 5), (15, 5), (16, 5)] := by
  simp [sceneSeventeen, Scene.collect, Obj.type, planeFar_hit, planeFarRed_hit, List.replicate]

theorem insertionSortBy_contract : StdSortContract (insertionSortBy : SortFn K) := by
  intro l
  haveI : IsTotal (DistPair K) (fun a b => distLess b a = false) :=
    ⟨fun a b => by simp only [distLess_false_iff]; exact le_total _ _⟩
  haveI : IsTrans (DistPair K) (fun a b => distLess b a = false) :=
    ⟨fun a b c => by simp only [distLess_false_iff]; exact le_trans⟩
  exact ⟨List.perm_insertionSort _ l, List.sorted_insertionSort _ l⟩

theorem insertionSortBy_stable : StableSort (insertionSortBy : SortFn K) := by
  intro l c hc hsub
  exact List.sublist_insertionSort hc hsub

theorem Scene.mem_collect_of_hit (sqrtf : K → K) (Epsilon : K) (scene : Scene K) (ray : Ray K)
    (j : Nat) (ob : Obj K) (st : K) (hj : scene.m_objects[j]? = some ob)
    (hty : ob.type ≠ ObjectType.TLight) (hhit : (ob.intersects sqrtf Epsilon ray st).1 = true) :
    (j, (ob.intersects sqrtf Epsilon ray st).2) ∈
      Scene.collect sqrtf Epsilon ray scene.m_objects 0 0 := by
  refine (Scene.mem_collect sqrtf Epsilon ray scene.m_objects 0 0 j _).mpr
    ⟨j, ob, by omega, hj, hty, fun st' => ?_⟩
  rw [Obj.intersects_hit_indep sqrtf Epsilon ob ray st st' hhit]
  exact Prod.ext hhit rfl

theorem Scene.intersects_outcome
    (sort : SortFn K) (hsort : StdSortContract sort) (sqrtf : K → K) (Epsilon : K)
    (scene : Scene K) (ray : Ray K) :
    ((∀ (j : Nat) (ob : Obj K) (st : K), scene.m_objects[j]? = some ob → ob.type ≠ ObjectType.TLight →
        (ob.intersects sqrtf Epsilon ray st).1 = false) ∧
      Scene.intersects sort sqrtf Epsilon scene ray = ⟨false, -1, none⟩) ∨
    (∃ k t ob, Scene.intersects sort sqrtf Epsilon scene ray = ⟨true, t, some k⟩ ∧
      scene.m_objects[k]? = some ob ∧ ob.type ≠ ObjectType.TLight ∧
      (∀ st, ob.intersects sqrtf Epsilon ray st = (true, t)) ∧
      ∀ (j : Nat) (ob' : Obj K) (st : K), scene.m_objects[j]? = some ob' → ob'.type ≠ ObjectType.TLight →
        (ob'.intersects sqrtf Epsilon ray st).1 = true →
        t ≤ (ob'.intersects sqrtf Epsilon ray st).2) := by
  rcases Scene.intersects_cases sort hsort sqrtf Epsilon scene ray with
    ⟨hnil, hres⟩ | ⟨k, t, hres, hmem, _, hmin⟩
  · left
    refine ⟨fun j ob st hj hty => ?_, hres⟩
    by_contra hne
    have hhit : (ob.intersects sqrtf Epsilon ray st).1 = true := by simpa using hne
    have := Scene.mem_collect_of_hit sqrtf Epsilon scene ray j ob st hj hty hhit
    rw [hnil] at this
    simp at this
  · right
    obtain ⟨j, ob, hk, hj, hty, hrep⟩ :=
      (Scene.mem_collect sqrtf Epsilon ray scene.m_objects 0 0 k t).mp hmem
    have hkj : k = j := by omega
    subst hkj
    refine ⟨k, t, ob, hres, hj, hty, hrep, fun j' ob' st hj' hty' hhit' => ?_⟩
    exact hmin _ (Scene.mem_collect_of_hit sqrtf Epsilon scene ray j' ob' st hj' hty' hhit')

end SceneLemmas

/-! ## Lemmas on the primitives -/

section PrimitiveLemmas

variable {K : Type} [LinearOrderedField K]

theorem Vector3.dot_self_pos (v : Vector3 K) (hv : v ≠ ⟨0, 0, 0⟩) : 0 < v.dot v := by
  obtain ⟨x, y, z⟩ := v
  simp only [Vector3.dot]
  by_contra hle
  have hx : x = 0 := by nlinarith [mul_self_nonneg x, mul_self_nonneg y, mul_self_nonneg z]
  have hy : y = 0 := by nlinarith [mul_self_nonneg x, mul_self_nonneg y, mul_self_nonneg z]
  have hz : z = 0 := by nlinarith [mul_self_nonneg x, mul_self_nonneg y, mul_self_nonneg z]
  exact hv (by rw [hx, hy, hz])

theorem Sphere.intersects_eq (sqrtf : K → K) (s : Sphere K) (ray : Ray K) (st : K) :
    s.intersects sqrtf ray st =
      if s.dis ray < 0 then (false, -1)
      else (true, (-(s.qb ray) - sqrtf (s.dis ray)) / (2 * s.qa ray)) := rfl

theorem Plane.intersects_ite (Epsilon : K) (p : Plane K) (ray : Ray K) (st : K) :
    p.intersects Epsilon ray st =
      if p.norm.dot ray.direction > Epsilon then
        (if (p.position.sub ray.origin).dot p.norm / p.norm.dot ray.direction ≥ 0 then
          (true, (p.position.sub ray.origin).dot p.norm / p.norm.dot ray.direction)
        else (false, -1))
      else (false, -1) := rfl

theorem Sphere.at_dist (s : Sphere K) (ray : Ray K) (t : K) :
    ((ray.at t).sub s.position).dot ((ray.at t).sub s.position) =
      s.qa ray * t * t + s.qb ray * t + s.qc ray + s.radius * s.radius := by
  simp only [Ray.at, Vector3.add, Vector3.sub, Vector3.scale, Vector3.dot, Sphere.qa, Sphere.qb,
    Sphere.qc]
  ring

theorem quadratic_small_root (a b c r : K) (ha : 0 < a) (hr0 : 0 ≤ r)
    (hr : r * r = b * b - 4 * a * c) :
    a * ((-b - r) / (2 * a)) * ((-b - r) / (2 * a)) + b * ((-b - r) / (2 * a)) + c = 0 ∧
    a * ((-b + r) / (2 * a)) * ((-b + r) / (2 * a)) + b * ((-b + r) / (2 * a)) + c = 0 ∧
    (-b - r) / (2 * a) ≤ (-b + r) / (2 * a) ∧
    ∀ t, a * t * t + b * t + c = 0 → (t = (-b - r) / (2 * a) ∨ t = (-b + r) / (2 * a)) := by
  have ha0 : a ≠ 0 := ne_of_gt ha
  have h4a : 4 * a ≠ 0 := by positivity
  have h1 : 2 * a * ((-b - r) / (2 * a)) = -b - r := by field_simp
  have h2 : 2 * a * ((-b + r) / (2 * a)) = -b + r := by field_simp
  refine ⟨?_, ?_, ?_, ?_⟩
  · refine (mul_eq_zero.mp ?_).resolve_left h4a
    linear_combination (2 * a * ((-b - r) / (2 * a)) + b - r) * h1 + hr
  · refine (mul_eq_zero.mp ?_).resolve_left h4a
    linear_combination (2 * a * ((-b + r) / (2 * a)) + b + r) * h2 + hr
  · apply div_le_div_of_nonneg_right _ (by positivity)
    linarith
  · intro t ht
    have hfac : (2 * a * t + b - r) * (2 * a * t + b + r) = 0 := by
      linear_combination (4 * a) * ht - hr
    rcases mul_eq_zero.mp hfac with h | h
    · right
      field_simp
      linear_combination h
    · left
      field_simp
      linear_combination h

theorem sphereNear_coeffs :
    sphereNear.qa rayDownZ = 1 ∧ sphereNear.qb rayDownZ = -6 ∧ sphereNear.qc rayDownZ = 8 ∧
      sphereNear.dis rayDownZ = 4 := by
  norm_num [Sphere.dis, Sphere.qa, Sphere.qb, Sphere.qc, sphereNear, objectAt, rayDownZ,
    Vector3.dot, Vector3.sub]

theorem sphereNear_isSqrt : IsSqrt sqrtQ (sphereNear.dis rayDownZ) := by
  rw [sphereNear_coeffs.2.2.2, IsSqrt, sqrtQ_four]
  norm_num

theorem rayDownZ_direction_ne : rayDownZ.direction ≠ ⟨0, 0, 0⟩ := by
  simp [rayDownZ]

end PrimitiveLemmas

/-! ## Nearest-hit query: the settled properties -/

section SceneClaims

variable {K : Type} [LinearOrderedField K]

/-- C1: whenever some non-Light object of the scene reports a hit, `Scene::intersects` returns
`true`; the hit object is a non-Light object of the scene that reports exactly the returned `t`;
the returned `t` is at most every `t` reported by a hitting non-Light object (so it is their
minimum); and an object whose reported `t` is strictly smaller than that of every other hitting
object is the one returned, at whatever index it was added. -/
theorem Scene.intersects_returns_nearest
    (sort : SortFn K) (hsort : StdSortContract sort) (sqrtf : K → K) (Epsilon : K)
    (scene : Scene K) (ray : Ray K)
    (hhit : ∃ ob ∈ scene.m_objects, ob.type ≠ ObjectType.TLight ∧
      ∃ st, (ob.intersects sqrtf Epsilon ray st).1 = true) :
    (Scene.intersects sort sqrtf Epsilon scene ray).ret = true ∧
    (∃ k ob, (Scene.intersects sort sqrtf Epsilon scene ray).hitObj = some k ∧
      scene.m_objects[k]? = some ob ∧ ob.type ≠ ObjectType.TLight ∧
      ∀ st, ob.intersects sqrtf Epsilon ray st =
        (true, (Scene.intersects sort sqrtf Epsilon scene ray).t)) ∧
    (∀ (j : Nat) (ob : Obj K) (st : K), scene.m_objects[j]? = some ob → ob.type ≠ ObjectType.TLight →
      (ob.intersects sqrtf Epsilon ray st).1 = true →
      (Scene.intersects sort sqrtf Epsilon scene ray).t ≤ (ob.intersects sqrtf Epsilon ray st).2) ∧
    (∀ (j : Nat) (ob : Obj K) (st : K), scene.m_objects[j]? = some ob → ob.type ≠ ObjectType.TLight →
      (ob.intersects sqrtf Epsilon ray st).1 = true →
      (∀ (j' : Nat) (ob' : Obj K), j' ≠ j → scene.m_objects[j']? = some ob' → ob'.type ≠ ObjectType.TLight →
        (ob'.intersects sqrtf Epsilon ray st).1 = true →
        (ob.intersects sqrtf Epsilon ray st).2 < (ob'.intersects sqrtf Epsilon ray st).2) →
      (Scene.intersects sort sqrtf Epsilon scene ray).hitObj = some j) := by
  rcases Scene.intersects_outcome sort hsort sqrtf Epsilon scene ray with
    ⟨hnone, _⟩ | ⟨k, t, ob, hres, hk, hty, hrep, hmin⟩
  · obtain ⟨ob, hmem, hty, st, hst⟩ := hhit
    obtain ⟨j, hj⟩ := List.mem_iff_getElem?.mp hmem
    have := hnone j ob st hj hty
    rw [hst] at this
    exact absurd this (by simp)
  · rw [hres]
    refine ⟨rfl, ⟨k, ob, rfl, hk, hty, hrep⟩, hmin, ?_⟩
    intro j obj st hj htyj hhitj hstrict
    by_contra hne
    have hkj : k ≠ j := fun h => hne (by rw [h])
    have h1 := hstrict k ob hkj hk hty (by rw [hrep st])
    have h2 := hmin j obj st hj htyj hhitj
    rw [hrep st] at h1
    exact absurd h1 (not_lt.mpr h2)

/-- Witness for C1: in `sceneMixed` the plane reports a hit for `rayDownZ`. -/
theorem Scene.intersects_returns_nearest_witness :
    (Scene.intersects insertionSortBy sqrtQ epsQ sceneMixed rayDownZ).ret = true ∧
    (∃ k ob, (Scene.intersects insertionSortBy sqrtQ epsQ sceneMixed rayDownZ).hitObj = some k ∧
      sceneMixed.m_objects[k]? = some ob ∧ ob.type ≠ ObjectType.TLight ∧
      ∀ st, ob.intersects sqrtQ epsQ rayDownZ st =
        (true, (Scene.intersects insertionSortBy sqrtQ epsQ sceneMixed rayDownZ).t)) :=
  have h := Scene.intersects_returns_nearest insertionSortBy insertionSortBy_contract sqrtQ epsQ
    sceneMixed rayDownZ
    ⟨Obj.plane planeFar, by simp [sceneMixed], by simp [Obj.type], 0, by rw [planeFar_hit]⟩
  ⟨h.1, h.2.1⟩

/-- C2: whenever `Scene::intersects` returns `true`, the hit object it stores is an object of the
scene whose `type()` is not `TLight`. -/
theorem Scene.intersects_never_light
    (sort : SortFn K) (hsort : StdSortContract sort) (sqrtf : K → K) (Epsilon : K)
    (scene : Scene K) (ray : Ray K)
    (hret : (Scene.intersects sort sqrtf Epsilon scene ray).ret = true) :
    ∃ k ob, (Scene.intersects sort sqrtf Epsilon scene ray).hitObj = some k ∧
      scene.m_objects[k]? = some ob ∧ ob.type ≠ ObjectType.TLight := by
  rcases Scene.intersects_outcome sort hsort sqrtf Epsilon scene ray with
    ⟨_, hres⟩ | ⟨k, t, ob, hres, hk, hty, _, _⟩
  · rw [hres] at hret
    exact absurd hret (by simp)
  · exact ⟨k, ob, by rw [hres], hk, hty⟩

/-- C10: when no non-Light object reports a hit, `Scene::intersects` returns `false`, leaves
`-1` in `t` and stores the null pointer as hit object; being a total function it always
returns. -/
theorem Scene.intersects_no_hit
    (sort : SortFn K) (hsort : StdSortContract sort) (sqrtf : K → K) (Epsilon : K)
    (scene : Scene K) (ray : Ray K)
    (hnone : ∀ ob ∈ scene.m_objects, ob.type ≠ ObjectType.TLight →
      ∀ st, (ob.intersects sqrtf Epsilon ray st).1 = false) :
    Scene.intersects sort sqrtf Epsilon scene ray = ⟨false, -1, none⟩ := by
  rcases Scene.intersects_outcome sort hsort sqrtf Epsilon scene ray with
    ⟨_, hres⟩ | ⟨k, t, ob, _, hk, hty, hrep, _⟩
  · exact hres
  · have hmem : ob ∈ scene.m_objects := List.mem_iff_getElem?.mpr ⟨k, hk⟩
    have := hnone ob hmem hty 0
    rw [hrep 0] at this
    exact absurd this (by simp)

/-- Witness for C2: `sceneMixed` puts a light on the ray in front of everything else and
`Scene::intersects` still returns `true` for `rayDownZ`. -/
theorem Scene.intersects_never_light_witness :
    ∃ k ob, (Scene.intersects insertionSortBy sqrtQ epsQ sceneMixed rayDownZ).hitObj = some k ∧
      sceneMixed.m_objects[k]? = some ob ∧ ob.type ≠ ObjectType.TLight :=
  Scene.intersects_never_light insertionSortBy insertionSortBy_contract sqrtQ epsQ sceneMixed
    rayDownZ (by
      simp only [Scene.intersects, sceneMixed_collect, insertionSortBy]
      norm_num [distLess])

/-- Witness for C10: in `sceneMiss` the only non-Light object is missed by `rayDownZ`. -/
theorem Scene.intersects_no_hit_witness :
    Scene.intersects insertionSortBy sqrtQ epsQ sceneMiss rayDownZ = ⟨false, -1, none⟩ :=
  Scene.intersects_no_hit insertionSortBy insertionSortBy_contract sqrtQ epsQ sceneMiss rayDownZ
    (by
      intro ob hob hty st
      simp only [sceneMiss, List.mem_cons, List.mem_singleton, List.not_mem_nil, or_false] at hob
      rcases hob with rfl | rfl
      · exact absurd rfl hty
      · rw [sphereAside_miss])

/-- C9 as stated fails: the seventeen coincident planes of `sceneSeventeen` all report the
minimal `t = 5` for `rayDownZ`; the `std::sort` of GNU libstdc++ partitions a vector of more
than sixteen entries around a median, which brings the ninth entry to the front, so the hit
object is the plane added ninth (index 8), not the one added first. -/
theorem Scene.intersects_tie_not_earliest :
    sceneSeventeen.m_objects[0]? = some (Obj.plane planeFar) ∧
    sceneSeventeen.m_objects[8]? = some (Obj.plane planeFarRed) ∧
    (Obj.plane planeFar).intersects sqrtQ epsQ rayDownZ 0 = (true, 5) ∧
    (Obj.plane planeFarRed).intersects sqrtQ epsQ rayDownZ 0 = (true, 5) ∧
    Scene.collect sqrtQ epsQ rayDownZ sceneSeventeen.m_objects 0 0 =
      [(0, 5), (1, 5), (2, 5), (3, 5), (4, 5), (5, 5), (6, 5), (7, 5), (8, 5), (9, 5), (10, 5),
      (11, 5), (12, 5), (13, 5), (14, 5), (15, 5), (16, 5)] ∧
    gnuSortRun distLess (Scene.collect sqrtQ epsQ rayDownZ sceneSeventeen.m_objects 0 0) =
      some [(8, 5), (16, 5), (15, 5), (14, 5), (13, 5), (12, 5), (11, 5), (10, 5), (9, 5), (0, 5),
      (7, 5), (6, 5), (5, 5), (4, 5), (3, 5), (2, 5), (1, 5)] ∧
    Scene.intersects gnuSort sqrtQ epsQ sceneSeventeen rayDownZ = ⟨true, 5, some 8⟩ := by
  have hsort : gnuSortRun distLess (Scene.collect sqrtQ epsQ rayDownZ sceneSeventeen.m_objects 0 0) =
      some [(8, 5), (16, 5), (15, 5), (14, 5), (13, 5), (12, 5), (11, 5), (10, 5), (9, 5), (0, 5),
      (7, 5), (6, 5), (5, 5), (4, 5), (3, 5), (2, 5), (1, 5)] := by
    rw [sceneSeventeen_collect,
      gnuSortRun_eq distLess _ 17 8 (by decide) (by decide) (by simp [Nat.log2])]
    decide
  refine ⟨rfl, rfl, planeFar_hit 0, planeFarRed_hit 0, sceneSeventeen_collect, hsort, ?_⟩
  simp only [Scene.intersects, gnuSort, hsort, Option.getD_some]

/-- C9 (amended): when `m` is the minimal `t` reported by the non-Light objects for a ray, the
hit object stored by `Scene::intersects` is one of the objects that report `m`; it is the one
added earliest (lowest index) among them whenever the sort keeps tied entries in their input
order, which `std::sort` is not required to do. -/
theorem Scene.intersects_tie_break
    (sort : SortFn K) (hsort : StdSortContract sort) (sqrtf : K → K) (Epsilon : K)
    (scene : Scene K) (ray : Ray K)
    (m : K)
    (hrep : ∃ (j : Nat) (ob : Obj K), scene.m_objects[j]? = some ob ∧
      ob.type ≠ ObjectType.TLight ∧ ∀ st, ob.intersects sqrtf Epsilon ray st = (true, m))
    (hmin : ∀ (j : Nat) (ob : Obj K) (st : K), scene.m_objects[j]? = some ob →
      ob.type ≠ ObjectType.TLight → (ob.intersects sqrtf Epsilon ray st).1 = true →
      m ≤ (ob.intersects sqrtf Epsilon ray st).2) :
    (∃ k ob, Scene.intersects sort sqrtf Epsilon scene ray = ⟨true, m, some k⟩ ∧
      scene.m_objects[k]? = some ob ∧ ob.type ≠ ObjectType.TLight ∧
      ∀ st, ob.intersects sqrtf Epsilon ray st = (true, m)) ∧
    (StableSort sort → ∀ k, (Scene.intersects sort sqrtf Epsilon scene ray).hitObj = some k →
      ∀ (j : Nat) (ob : Obj K), scene.m_objects[j]? = some ob → ob.type ≠ ObjectType.TLight →
        (∀ st, ob.intersects sqrtf Epsilon ray st = (true, m)) → k ≤ j) := by
  obtain ⟨j₀, ob₀, hj₀, hty₀, hrep₀⟩ := hrep
  have hmem₀ : (j₀, m) ∈ Scene.collect sqrtf Epsilon ray scene.m_objects 0 0 :=
    (Scene.mem_collect sqrtf Epsilon ray scene.m_objects 0 0 j₀ m).mpr
      ⟨j₀, ob₀, by omega, hj₀, hty₀, hrep₀⟩
  rcases Scene.intersects_cases sort hsort sqrtf Epsilon scene ray with
    ⟨hnil, _⟩ | ⟨k, t, hres, hmem, hhead, hle⟩
  · rw [hnil] at hmem₀
    simp at hmem₀
  · obtain ⟨k', ob, hk', hk, hty, hrepk⟩ :=
      (Scene.mem_collect sqrtf Epsilon ray scene.m_objects 0 0 k t).mp hmem
    have hkk : k = k' := by omega
    subst hkk
    have htm : t = m := by
      apply le_antisymm (hle _ hmem₀)
      have := hmin k ob 0 hk hty (by rw [hrepk 0])
      rwa [hrepk 0] at this
    subst htm
    refine ⟨⟨k, ob, hres, hk, hty, hrepk⟩, fun hstable k₁ hk₁ j obj hj htyj hrepj => ?_⟩
    rw [hres] at hk₁
    have hk₁k : k = k₁ := by simpa using hk₁
    subst hk₁k
    by_contra hlt
    have hjk : j < k := by omega
    have hmemj : (j, t) ∈ Scene.collect sqrtf Epsilon ray scene.m_objects 0 0 :=
      (Scene.mem_collect sqrtf Epsilon ray scene.m_objects 0 0 j t).mpr
        ⟨j, obj, by omega, hj, htyj, hrepj⟩
    have hinc := Scene.collect_index_increasing sqrtf Epsilon ray scene.m_objects 0 0
    have hsub : [(j, t), (k, t)].Sublist (Scene.collect sqrtf Epsilon ray scene.m_objects 0 0) :=
      pair_sublist_of_pairwise (R := fun a b : DistPair K => a.1 < b.1)
        (fun a b hab => by omega) _ hinc (j, t) (k, t) hmemj hmem hjk
    have hsub' := hstable _ _ (by simp [distLess]) hsub
    have hnodup : (sort distLess (Scene.collect sqrtf Epsilon ray scene.m_objects 0 0)).Nodup :=
      ((hsort _).1.nodup_iff).mpr (hinc.imp (fun {a b} hab => by
        intro h; rw [h] at hab; exact absurd hab (lt_irrefl _)))
    rw [← hhead] at hsub' hnodup
    cases hsub' with
    | cons _ h =>
      have hin : (k, t) ∈ (sort distLess
          (Scene.collect sqrtf Epsilon ray scene.m_objects 0 0)).tail :=
        h.subset (by simp)
      exact (List.nodup_cons.mp hnodup).1 hin
    | cons₂ _ h => omega

/-- Witness for C9 (amended): in `sceneTwins` both planes report the minimal `t = 5`. -/
theorem Scene.intersects_tie_break_witness :
    (∃ k ob, Scene.intersects insertionSortBy sqrtQ epsQ sceneTwins rayDownZ = ⟨true, 5, some k⟩ ∧
      sceneTwins.m_objects[k]? = some ob ∧ ob.type ≠ ObjectType.TLight ∧
      ∀ st, ob.intersects sqrtQ epsQ rayDownZ st = (true, 5)) ∧
    (∀ k, (Scene.intersects insertionSortBy sqrtQ epsQ sceneTwins rayDownZ).hitObj = some k →
      ∀ (j : Nat) (ob : Obj ℚ), sceneTwins.m_objects[j]? = some ob → ob.type ≠ ObjectType.TLight →
        (∀ st, ob.intersects sqrtQ epsQ rayDownZ st = (true, 5)) → k ≤ j) :=
  have h := Scene.intersects_tie_break insertionSortBy insertionSortBy_contract sqrtQ epsQ
    sceneTwins rayDownZ 5
    ⟨0, Obj.plane planeFar, rfl, by simp [Obj.type], planeFar_hit⟩
    (by
      intro j ob st hj hty hhit
      have hob : ob = Obj.plane planeFar ∨ ob = Obj.plane planeFarRed := by
        have hmem : ob ∈ sceneTwins.m_objects := List.mem_iff_getElem?.mpr ⟨j, hj⟩
        simpa [sceneTwins] using hmem
      rcases hob with rfl | rfl
      · rw [planeFar_hit]
      · rw [planeFarRed_hit])
  ⟨h.1, h.2 insertionSortBy_stable⟩

end SceneClaims

/-! ## Sphere and plane intersection: the settled properties -/

section PrimitiveClaims

variable {K : Type} [LinearOrderedField K]

/-- C6: for a ray with non-zero direction and `a = d·d`, `b = 2(o-p)·d`, `c = (o-p)·(o-p) - r²`,
`Sphere::intersects` returns `false` with `t = -1` exactly when `b² - 4ac < 0`; otherwise it
returns `true` with `t = (-b - sqrt(b² - 4ac)) / (2a)`, this `t` and `(-b + sqrt(b² - 4ac)) / (2a)`
are the only roots of `a t² + b t + c = 0`, the returned `t` is at most every root, and
`ray.at(t)` lies on the sphere. -/
theorem Sphere.intersects_smaller_root (sqrtf : K → K) (s : Sphere K) (ray : Ray K) (st : K)
    (hdir : ray.direction ≠ ⟨0, 0, 0⟩)
    (hsqrt : 0 ≤ s.dis ray → IsSqrt sqrtf (s.dis ray)) :
    (s.intersects sqrtf ray st = (false, -1) ↔ s.dis ray < 0) ∧
    (¬ s.dis ray < 0 →
      s.intersects sqrtf ray st =
        (true, (-(s.qb ray) - sqrtf (s.dis ray)) / (2 * s.qa ray)) ∧
      s.qa ray * (s.intersects sqrtf ray st).2 * (s.intersects sqrtf ray st).2 +
        s.qb ray * (s.intersects sqrtf ray st).2 + s.qc ray = 0 ∧
      (∀ t : K, s.qa ray * t * t + s.qb ray * t + s.qc ray = 0 →
        (t = (s.intersects sqrtf ray st).2 ∨
          t = (-(s.qb ray) + sqrtf (s.dis ray)) / (2 * s.qa ray)) ∧
        (s.intersects sqrtf ray st).2 ≤ t) ∧
      ((ray.at (s.intersects sqrtf ray st).2).sub s.position).dot
          ((ray.at (s.intersects sqrtf ray st).2).sub s.position) = s.radius * s.radius) := by
  have ha : 0 < s.qa ray := Vector3.dot_self_pos ray.direction hdir
  rw [Sphere.intersects_eq]
  by_cases hd : s.dis ray < 0
  · rw [if_pos hd]
    exact ⟨⟨fun _ => hd, fun _ => rfl⟩, fun h => absurd hd h⟩
  · rw [if_neg hd]
    obtain ⟨hr0, hr⟩ := hsqrt (not_lt.mp hd)
    obtain ⟨h1, _, h3, h4⟩ := quadratic_small_root (s.qa ray) (s.qb ray) (s.qc ray)
      (sqrtf (s.dis ray)) ha hr0 hr
    refine ⟨⟨fun h => absurd (congrArg Prod.fst h) (by simp), fun h => absurd h hd⟩,
      fun _ => ⟨rfl, h1, fun t ht => ?_, ?_⟩⟩
    · refine ⟨h4 t ht, ?_⟩
      rcases h4 t ht with h | h
      · exact h.ge
      · rw [h]; exact h3
    · rw [Sphere.at_dist, h1, zero_add]

/-- Witness for C6: `sphereNear` and `rayDownZ` have discriminant `4` and `sqrtQ 4 = 2`. -/
theorem Sphere.intersects_smaller_root_witness :
    sphereNear.intersects sqrtQ rayDownZ 0 =
      (true, (-(sphereNear.qb rayDownZ) - sqrtQ (sphereNear.dis rayDownZ)) /
        (2 * sphereNear.qa rayDownZ)) :=
  ((Sphere.intersects_smaller_root sqrtQ sphereNear rayDownZ 0 rayDownZ_direction_ne
    (fun _ => sphereNear_isSqrt)).2 (by rw [sphereNear_coeffs.2.2.2]; norm_num)).1

/-- C7: for a ray with non-zero direction whose origin is outside the sphere (`c > 0`) and which
points towards it (`b < 0`) with a non-negative discriminant, `Sphere::intersects` returns `true`
with a non-negative `t` that is a root of `a t² + b t + c = 0`, and every root is non-negative
and at least the returned `t`. -/
theorem Sphere.intersects_front_hit (sqrtf : K → K) (s : Sphere K) (ray : Ray K) (st : K)
    (hdir : ray.direction ≠ ⟨0, 0, 0⟩) (hc : 0 < s.qc ray) (hb : s.qb ray < 0)
    (hdis : 0 ≤ s.dis ray) (hsqrt : IsSqrt sqrtf (s.dis ray)) :
    (s.intersects sqrtf ray st).1 = true ∧
    0 ≤ (s.intersects sqrtf ray st).2 ∧
    s.qa ray * (s.intersects sqrtf ray st).2 * (s.intersects sqrtf ray st).2 +
      s.qb ray * (s.intersects sqrtf ray st).2 + s.qc ray = 0 ∧
    ∀ t : K, s.qa ray * t * t + s.qb ray * t + s.qc ray = 0 →
      0 ≤ t ∧ (s.intersects sqrtf ray st).2 ≤ t := by
  have ha : 0 < s.qa ray := Vector3.dot_self_pos ray.direction hdir
  obtain ⟨hr0, hr⟩ := hsqrt
  obtain ⟨h1, _, h3, h4⟩ := quadratic_small_root (s.qa ray) (s.qb ray) (s.qc ray)
    (sqrtf (s.dis ray)) ha hr0 hr
  have hlt : sqrtf (s.dis ray) < -(s.qb ray) := by
    by_contra hge
    have hge' : -(s.qb ray) ≤ sqrtf (s.dis ray) := not_lt.mp hge
    have hsq : s.qb ray * s.qb ray ≤ sqrtf (s.dis ray) * sqrtf (s.dis ray) := by nlinarith
    have hac : 0 < s.qa ray * s.qc ray := mul_pos ha hc
    rw [hr, Sphere.dis] at hsq
    linarith
  have ht0 : 0 ≤ (-(s.qb ray) - sqrtf (s.dis ray)) / (2 * s.qa ray) :=
    div_nonneg (by linarith) (by positivity)
  rw [Sphere.intersects_eq, if_neg (not_lt.mpr hdis)]
  refine ⟨rfl, ht0, h1, fun t ht => ?_⟩
  rcases h4 t ht with h | h
  · rw [h]; exact ⟨ht0, le_refl _⟩
  · rw [h]; exact ⟨le_trans ht0 h3, h3⟩

/-- Witness for C7: `rayDownZ` starts outside `sphereNear` (`c = 8`) and points at it
(`b = -6`). -/
theorem Sphere.intersects_front_hit_witness :
    (sphereNear.intersects sqrtQ rayDownZ 0).1 = true ∧
      0 ≤ (sphereNear.intersects sqrtQ rayDownZ 0).2 :=
  have h := Sphere.intersects_front_hit sqrtQ sphereNear rayDownZ 0 rayDownZ_direction_ne
    (by rw [sphereNear_coeffs.2.2.1]; norm_num) (by rw [sphereNear_coeffs.2.1]; norm_num)
    (by rw [sphereNear_coeffs.2.2.2]; norm_num) sphereNear_isSqrt
  ⟨h.1, h.2.1⟩

/-- C8: with `Epsilon ≥ 0`, `Plane::intersects` returns `true` exactly when
`norm·direction > Epsilon` and `t0 = ((position - origin)·norm) / (norm·direction) ≥ 0`; when it
returns `true` the returned `t` is `t0`, is non-negative and satisfies
`(ray.at(t) - position)·norm = 0`; when it returns `false` the returned `t` is `-1`, which is
the case whenever `|norm·direction| ≤ Epsilon`. -/
theorem Plane.intersects_spec (Epsilon : K) (hε : 0 ≤ Epsilon) (p : Plane K) (ray : Ray K)
    (st : K) :
    ((p.intersects Epsilon ray st).1 = true ↔
      (p.norm.dot ray.direction > Epsilon ∧
        (p.position.sub ray.origin).dot p.norm / p.norm.dot ray.direction ≥ 0)) ∧
    ((p.intersects Epsilon ray st).1 = true →
      (p.intersects Epsilon ray st).2 =
        (p.position.sub ray.origin).dot p.norm / p.norm.dot ray.direction ∧
      0 ≤ (p.intersects Epsilon ray st).2 ∧
      ((ray.at (p.intersects Epsilon ray st).2).sub p.position).dot p.norm = 0) ∧
    ((p.intersects Epsilon ray st).1 = false → (p.intersects Epsilon ray st).2 = -1) ∧
    (|p.norm.dot ray.direction| ≤ Epsilon → p.intersects Epsilon ray st = (false, -1)) := by
  rw [Plane.intersects_ite]
  by_cases hd : p.norm.dot ray.direction > Epsilon
  · have hne : p.norm.dot ray.direction ≠ 0 := ne_of_gt (lt_of_le_of_lt hε hd)
    by_cases ht : (p.position.sub ray.origin).dot p.norm / p.norm.dot ray.direction ≥ 0
    · rw [if_pos hd, if_pos ht]
      refine ⟨⟨fun _ => ⟨hd, ht⟩, fun _ => rfl⟩, fun _ => ⟨rfl, ht, ?_⟩,
        fun h => absurd h (by simp),
        fun habs => absurd (le_trans (le_abs_self _) habs) (not_le.mpr hd)⟩
      have hmul : (p.position.sub ray.origin).dot p.norm / p.norm.dot ray.direction *
          p.norm.dot ray.direction = (p.position.sub ray.origin).dot p.norm :=
        div_mul_cancel₀ _ hne
      simp only [Ray.at, Vector3.add, Vector3.sub, Vector3.scale, Vector3.dot] at hmul ⊢
      linear_combination hmul
    · rw [if_pos hd, if_neg ht]
      exact ⟨⟨fun h => absurd h (by simp), fun h => absurd h.2 ht⟩,
        fun h => absurd h (by simp), fun _ => rfl, fun _ => rfl⟩
  · rw [if_neg hd]
    exact ⟨⟨fun h => absurd h (by simp), fun h => absurd h.1 hd⟩,
      fun h => absurd h (by simp), fun _ => rfl, fun _ => rfl⟩

/-- Witness for C8: `epsQ` is non-negative and `planeFar` is hit by `rayDownZ`, at `t = 5`. -/
theorem Plane.intersects_spec_witness :
    (planeFar.intersects epsQ rayDownZ 0).2 =
        (planeFar.position.sub rayDownZ.origin).dot planeFar.norm /
          planeFar.norm.dot rayDownZ.direction ∧
      0 ≤ (planeFar.intersects epsQ rayDownZ 0).2 ∧
      ((rayDownZ.at (planeFar.intersects epsQ rayDownZ 0).2).sub planeFar.position).dot
        planeFar.norm = 0 :=
  (Plane.intersects_spec epsQ (by norm_num [epsQ]) planeFar rayDownZ 0).2.1
    (congrArg Prod.fst (planeFar_hit 0))

end PrimitiveClaims

/-! ## Lemmas on tiles and the render loop -/

section TileLemmas

theorem wrapInt_of_range (n : Int) (h1 : -2147483648 ≤ n) (h2 : n < 2147483648) :
    wrapInt n = n := by
  unfold wrapInt
  omega

theorem wrapInt_range (n : Int) : -2147483648 ≤ wrapInt n ∧ wrapInt n < 2147483648 := by
  unfold wrapInt
  omega

end TileLemmas

/-! ## Shading: the per-light term -/

section ShadingClaims

/-- C3: the code's per-light term does not divide by `dist²`. For the white light `lampAbove` of
intensity `1`, at distance `2` straight along the normal `(0, 1, 0)` of a hit point at the
origin, the render loop adds `(1, 1, 1)` to the lighting, whereas
`light.color × intensity × max(0, N·L) / dist²` is `(1/4, 1/4, 1/4)`. -/
theorem lightTerm_not_inverse_square :
    lightTerm sqrtQ ⟨0, 0, 0⟩ ⟨0, 1, 0⟩ lampAbove = ⟨1, 1, 1⟩ ∧
    lightTermSpec sqrtQ ⟨0, 0, 0⟩ ⟨0, 1, 0⟩ lampAbove = ⟨1 / 4, 1 / 4, 1 / 4⟩ := by
  constructor
  · norm_num [lightTerm, lampAbove, objectAt, Vector3.sub, Vector3.length, Vector3.normalized,
      Vector3.dot, Vector3.scale, Vector3.splat, clamp, sqrtQ_four]
  · norm_num [lightTermSpec, lampAbove, objectAt, Vector3.sub, Vector3.length,
      Vector3.normalized, Vector3.dot, Vector3.scale, Vector3.splat, sqrtQ_four]

end ShadingClaims

/-! ## Pixel offsets and tiles -/

section PixelClaims

theorem linearOffset_bijective (width height : Int) (hw : 0 < width) :
    (∀ x y c : Int, 0 ≤ x → x < width → 0 ≤ y → y < height → 0 ≤ c → c < 3 →
      0 ≤ y * width ∧ 0 ≤ x + y * width ∧ x + y * width < width * height ∧
      0 ≤ (x + y * width) * 3 + c ∧ (x + y * width) * 3 + c < width * height * 3) ∧
    (∀ x y c x' y' c' : Int, 0 ≤ x → x < width → 0 ≤ y → y < height → 0 ≤ c → c < 3 →
      0 ≤ x' → x' < width → 0 ≤ y' → y' < height → 0 ≤ c' → c' < 3 →
      (x + y * width) * 3 + c = (x' + y' * width) * 3 + c' → x = x' ∧ y = y' ∧ c = c') ∧
    (∀ o : Int, 0 ≤ o → o < width * height * 3 →
      ∃ x y c : Int, 0 ≤ x ∧ x < width ∧ 0 ≤ y ∧ y < height ∧ 0 ≤ c ∧ c < 3 ∧
        (x + y * width) * 3 + c = o) := by
  refine ⟨?_, ?_, ?_⟩
  · intro x y c hx0 hx hy0 hy hc0 hc
    have h1 : 0 ≤ y * width := mul_nonneg hy0 hw.le
    have h2 : (y + 1) * width ≤ height * width :=
      mul_le_mul_of_nonneg_right (by omega) hw.le
    refine ⟨h1, ?_, ?_, ?_, ?_⟩ <;> nlinarith
  · intro x y c x' y' c' hx0 hx hy0 hy hc0 hc hx0' hx' hy0' hy' hc0' hc' heq
    have hc_eq : c = c' := by omega
    have hp : x + y * width = x' + y' * width := by omega
    have hy_eq : y = y' := by
      rcases lt_trichotomy y y' with h | h | h
      · exfalso
        have : (y + 1) * width ≤ y' * width := mul_le_mul_of_nonneg_right (by omega) hw.le
        nlinarith
      · exact h
      · exfalso
        have : (y' + 1) * width ≤ y * width := mul_le_mul_of_nonneg_right (by omega) hw.le
        nlinarith
    subst hy_eq
    exact ⟨by omega, rfl, hc_eq⟩
  · intro o ho0 ho
    refine ⟨(o / 3) % width, (o / 3) / width, o % 3, Int.emod_nonneg _ hw.ne',
      Int.emod_lt_of_pos _ hw, Int.ediv_nonneg (by omega) hw.le, ?_, by omega, by omega, ?_⟩
    · apply Int.ediv_lt_of_lt_mul hw
      have hcomm : width * height = height * width := mul_comm _ _
      omega
    · have h1 := Int.emod_add_ediv (o / 3) width
      have h2 := Int.emod_add_ediv o 3
      have h3 : o / 3 / width * width = width * (o / 3 / width) := mul_comm _ _
      omega

theorem toSizeT_of_nonneg (n : Int) (h0 : 0 ≤ n) (h1 : n < 2147483648) :
    (toSizeT n : Int) = n := by
  unfold toSizeT
  omega

theorem pixelOffset_of_fit (width height x y c : Int) (hw : 0 < width)
    (hfit : width * height * 3 ≤ 2147483647)
    (hx0 : 0 ≤ x) (hx : x < width) (hy0 : 0 ≤ y) (hy : y < height) (hc0 : 0 ≤ c) (hc : c < 3) :
    pixelOffset width x y = (x + y * width) * 3 ∧
      wrapInt (pixelOffset width x y + c) = (x + y * width) * 3 + c ∧
      (byteIndex (pixelOffset width x y) c : Int) = (x + y * width) * 3 + c := by
  obtain ⟨h1, h2, h3, h4, h5⟩ :=
    (linearOffset_bijective width height hw).1 x y c hx0 hx hy0 hy hc0 hc
  have e1 : wrapInt (y * width) = y * width := wrapInt_of_range _ (by omega) (by omega)
  have e2 : wrapInt (x + y * width) = x + y * width := wrapInt_of_range _ (by omega) (by omega)
  have e3 : wrapInt ((x + y * width) * 3) = (x + y * width) * 3 :=
    wrapInt_of_range _ (by omega) (by omega)
  have e4 : pixelOffset width x y = (x + y * width) * 3 := by
    unfold pixelOffset
    rw [e1, e2, e3]
  have e5 : wrapInt (pixelOffset width x y + c) = (x + y * width) * 3 + c := by
    rw [e4]
    exact wrapInt_of_range _ (by omega) (by omega)
  refine ⟨e4, e5, ?_⟩
  unfold byteIndex
  rw [e5]
  exact toSizeT_of_nonneg _ h4 (by omega)

theorem bufferLength_of_fit (width height : Int) (hw : 0 < width) (hh : 0 < height)
    (hfit : width * height * 3 ≤ 2147483647) :
    bufferLength width height = width * height * 3 ∧
      (toSizeT (bufferLength width height) : Int) = width * height * 3 := by
  have hpos : 0 < width * height := mul_pos hw hh
  have e1 : wrapInt (width * height) = width * height :=
    wrapInt_of_range _ (by omega) (by omega)
  have e2 : bufferLength width height = width * height * 3 := by
    unfold bufferLength
    rw [e1]
    exact wrapInt_of_range _ (by omega) (by omega)
  refine ⟨e2, ?_⟩
  rw [e2]
  exact toSizeT_of_nonneg _ (by omega) (by omega)

/-- C5 as stated fails: in a `40000 × 40000` image the 32-bit offset of pixel `(0, 30000)` is
`-694967296` and the length handed to `resize` is `505032704`, so the `size_t` index of the
pixel's first byte lies far outside the buffer. -/
theorem pixelOffset_overflows :
    pixelOffset 40000 0 30000 = -694967296 ∧
      bufferLength 40000 40000 = 505032704 ∧
      byteIndex (pixelOffset 40000 0 30000) 0 = 18446744073014584320 ∧
      ¬ byteIndex (pixelOffset 40000 0 30000) 0 < toSizeT (bufferLength 40000 40000) := by
  decide

/-- C5 (amended): for a `width × height` image with both sizes positive and
`width * height * 3 ≤ 2147483647` (the buffer length fits a 32-bit `int`), the length handed
to `resize` is `width * height * 3`, the index of every byte `pixels[i + c]` of an in-range
pixel and channel is `(x + y*width)*3 + c` and lies inside the buffer, different
(pixel, channel) pairs get different indices, and every index of the buffer is reached. -/
theorem pixelOffset_bijective (width height : Int) (hw : 0 < width) (hh : 0 < height)
    (hfit : width * height * 3 ≤ 2147483647) :
    (toSizeT (bufferLength width height) : Int) = width * height * 3 ∧
    (∀ x y c : Int, 0 ≤ x → x < width → 0 ≤ y → y < height → 0 ≤ c → c < 3 →
      (byteIndex (pixelOffset width x y) c : Int) = (x + y * width) * 3 + c ∧
      byteIndex (pixelOffset width x y) c < toSizeT (bufferLength width height)) ∧
    (∀ x y c x' y' c' : Int, 0 ≤ x → x < width → 0 ≤ y → y < height → 0 ≤ c → c < 3 →
      0 ≤ x' → x' < width → 0 ≤ y' → y' < height → 0 ≤ c' → c' < 3 →
      byteIndex (pixelOffset width x y) c = byteIndex (pixelOffset width x' y') c' →
      x = x' ∧ y = y' ∧ c = c') ∧
    (∀ n : Nat, n < toSizeT (bufferLength width height) →
      ∃ x y c : Int, 0 ≤ x ∧ x < width ∧ 0 ≤ y ∧ y < height ∧ 0 ≤ c ∧ c < 3 ∧
        byteIndex (pixelOffset width x y) c = n) := by
  obtain ⟨hrange, hinj, hsurj⟩ := linearOffset_bijective width height hw
  obtain ⟨_, hlen⟩ := bufferLength_of_fit width height hw hh hfit
  refine ⟨hlen, ?_, ?_, ?_⟩
  · intro x y c hx0 hx hy0 hy hc0 hc
    obtain ⟨_, _, hidx⟩ := pixelOffset_of_fit width height x y c hw hfit hx0 hx hy0 hy hc0 hc
    obtain ⟨_, _, _, _, hlt⟩ := hrange x y c hx0 hx hy0 hy hc0 hc
    refine ⟨hidx, ?_⟩
    omega
  · intro x y c x' y' c' hx0 hx hy0 hy hc0 hc hx0' hx' hy0' hy' hc0' hc' heq
    obtain ⟨_, _, h1⟩ := pixelOffset_of_fit width height x y c hw hfit hx0 hx hy0 hy hc0 hc
    obtain ⟨_, _, h2⟩ :=
      pixelOffset_of_fit width height x' y' c' hw hfit hx0' hx' hy0' hy' hc0' hc'
    exact hinj x y c x' y' c' hx0 hx hy0 hy hc0 hc hx0' hx' hy0' hy' hc0' hc'
      (by rw [← h1, ← h2, heq])
  · intro n hn
    obtain ⟨x, y, c, hx0, hx, hy0, hy, hc0, hc, ho⟩ :=
      hsurj (n : Int) (Int.ofNat_nonneg n) (by omega)
    obtain ⟨_, _, h1⟩ := pixelOffset_of_fit width height x y c hw hfit hx0 hx hy0 hy hc0 hc
    exact ⟨x, y, c, hx0, hx, hy0, hy, hc0, hc, by omega⟩

/-- Witness for C5 (amended): the green byte of pixel `(1, 2)` of a `4 × 3` image. -/
theorem pixelOffset_bijective_witness :
    (byteIndex (pixelOffset 4 1 2) 1 : Int) = (1 + 2 * 4) * 3 + 1 ∧
      byteIndex (pixelOffset 4 1 2) 1 < toSizeT (bufferLength 4 3) :=
  (pixelOffset_bijective 4 3 (by decide) (by decide) (by decide)).2.1 1 2 1 (by decide)
    (by decide) (by decide) (by decide) (by decide) (by decide)

end PixelClaims

/-! ## Normals and light terms: the settled properties -/

section NormalClaims

variable {K : Type} [LinearOrderedField K]

theorem clamp_of_nonpos (v : K) (h : v ≤ 0) : clamp v 0 1 = 0 := by
  unfold clamp
  split_ifs with h1 h2
  · rfl
  · exact absurd h2 (not_lt.mpr (le_trans h zero_le_one))
  · exact le_antisymm h (not_lt.mp h1)

theorem sqrt_unique (sqrtf : K → K) (x r : K) (hs : IsSqrt sqrtf x) (hr : 0 ≤ r)
    (hx : x = r * r) : sqrtf x = r := by
  subst hx
  obtain ⟨h0, h1⟩ := hs
  rcases mul_self_eq_mul_self_iff.mp h1 with h | h
  · exact h
  · have h2 : sqrtf (r * r) = 0 := by linarith
    have h3 : r = 0 := by linarith
    rw [h2, h3]

/-- C13: when `N·L ≤ 0` for the unit direction `L` from the hit point to a light at positive
distance, the term the render loop adds for that light is the zero vector, so the lighting is
left unchanged, whatever the light's colour and intensity. -/
theorem lightTerm_zero_of_nonpos (sqrtf : K → K) (ip inn lighting : Vector3 K) (l : Light K)
    (hnl : inn.dot ((l.position.sub ip).normalized sqrtf) ≤ 0)
    (_hdist : 0 < (l.position.sub ip).length sqrtf) :
    lightTerm sqrtf ip inn l = ⟨0, 0, 0⟩ ∧
      lighting.add (lightTerm sqrtf ip inn l) = lighting := by
  have h0 : lightTerm sqrtf ip inn l = ⟨0, 0, 0⟩ := by
    simp only [lightTerm, clamp_of_nonpos _ hnl, Vector3.scale, zero_mul, zero_div, mul_zero]
  refine ⟨h0, ?_⟩
  rw [h0]
  simp [Vector3.add]

/-- Witness for C13: `lampBelow` lies straight below a hit point at the origin whose normal is
`(0, 1, 0)`, so `N·L = -1`. -/
theorem lightTerm_zero_of_nonpos_witness :
    lightTerm sqrtQ ⟨0, 0, 0⟩ ⟨0, 1, 0⟩ lampBelow = ⟨0, 0, 0⟩ ∧
      (⟨1, 1, 1⟩ : Vector3 ℚ).add (lightTerm sqrtQ ⟨0, 0, 0⟩ ⟨0, 1, 0⟩ lampBelow) = ⟨1, 1, 1⟩ :=
  lightTerm_zero_of_nonpos sqrtQ ⟨0, 0, 0⟩ ⟨0, 1, 0⟩ ⟨1, 1, 1⟩ lampBelow
    (by norm_num [lampBelow, objectAt, Vector3.sub, Vector3.length, Vector3.normalized,
      Vector3.dot, sqrtQ_four])
    (by norm_num [lampBelow, objectAt, Vector3.sub, Vector3.length, Vector3.dot, sqrtQ_four])

theorem sqrtQ_one : sqrtQ 1 = 1 := by
  have h : Nat.sqrt 1 = 1 := Nat.sqrt_eq 1
  simp [sqrtQ, h]

theorem sphereNear_hit_value (st : ℚ) : sphereNear.intersects sqrtQ rayDownZ st = (true, 2) :=
  sphereNear_hit st

/-- C14: for a sphere of positive radius and a ray with non-zero direction that
`Sphere::intersects` reports as hit with value `t`, `Sphere::normal(ray, t)` equals
`(ray.at(t) - position) / radius` and its dot product with itself is `1` (unit length); `sqrtf`
is taken exact on the discriminant and on the squared length that is normalised. -/
theorem Sphere.normal_unit (sqrtf : K → K) (s : Sphere K) (ray : Ray K) (st : K)
    (hr : 0 < s.radius) (hdir : ray.direction ≠ ⟨0, 0, 0⟩)
    (hhit : (s.intersects sqrtf ray st).1 = true)
    (hsq : IsSqrt sqrtf (s.dis ray))
    (hlen : IsSqrt sqrtf
      (((ray.at (s.intersects sqrtf ray st).2).sub s.position).dot
        ((ray.at (s.intersects sqrtf ray st).2).sub s.position))) :
    s.normal sqrtf ray (s.intersects sqrtf ray st).2 =
        ⟨((ray.at (s.intersects sqrtf ray st).2).sub s.position).x / s.radius,
         ((ray.at (s.intersects sqrtf ray st).2).sub s.position).y / s.radius,
         ((ray.at (s.intersects sqrtf ray st).2).sub s.position).z / s.radius⟩ ∧
      (s.normal sqrtf ray (s.intersects sqrtf ray st).2).dot
        (s.normal sqrtf ray (s.intersects sqrtf ray st).2) = 1 := by
  have ha : 0 < s.qa ray := Vector3.dot_self_pos ray.direction hdir
  have hd : ¬ s.dis ray < 0 := by
    intro hneg
    rw [Sphere.intersects_eq, if_pos hneg] at hhit
    exact absurd hhit (by simp)
  obtain ⟨hr0, hrr⟩ := hsq
  obtain ⟨h1, _, _, _⟩ := quadratic_small_root (s.qa ray) (s.qb ray) (s.qc ray)
    (sqrtf (s.dis ray)) ha hr0 hrr
  have ht : (s.intersects sqrtf ray st).2 =
      (-(s.qb ray) - sqrtf (s.dis ray)) / (2 * s.qa ray) := by
    rw [Sphere.intersects_eq, if_neg hd]
  have hvv : ((ray.at (s.intersects sqrtf ray st).2).sub s.position).dot
      ((ray.at (s.intersects sqrtf ray st).2).sub s.position) = s.radius * s.radius := by
    rw [Sphere.at_dist, ht, h1, zero_add]
  have hsqrt := sqrt_unique sqrtf _ s.radius hlen hr.le hvv
  have hne : s.radius ≠ 0 := ne_of_gt hr
  have hnormal : s.normal sqrtf ray (s.intersects sqrtf ray st).2 =
      ⟨((ray.at (s.intersects sqrtf ray st).2).sub s.position).x / s.radius,
       ((ray.at (s.intersects sqrtf ray st).2).sub s.position).y / s.radius,
       ((ray.at (s.intersects sqrtf ray st).2).sub s.position).z / s.radius⟩ := by
    simp only [Sphere.normal, Vector3.normalized, Vector3.length, hsqrt]
  refine ⟨hnormal, ?_⟩
  rw [hnormal]
  simp only [Vector3.dot] at hvv ⊢
  field_simp
  linear_combination hvv

/-- Witness for C14: `rayDownZ` hits the unit sphere `sphereNear` at `t = 2`, where
`ray.at(t) - position = (0, 0, 1)`. -/
theorem Sphere.normal_unit_witness :
    (sphereNear.normal sqrtQ rayDownZ (sphereNear.intersects sqrtQ rayDownZ 0).2).dot
      (sphereNear.normal sqrtQ rayDownZ (sphereNear.intersects sqrtQ rayDownZ 0).2) = 1 :=
  (Sphere.normal_unit sqrtQ sphereNear rayDownZ 0 (by norm_num [sphereNear])
    rayDownZ_direction_ne (by rw [sphereNear_hit_value]) sphereNear_isSqrt
    (by
      rw [sphereNear_hit_value]
      norm_num [IsSqrt, Ray.at, rayDownZ, sphereNear, objectAt, Vector3.add, Vector3.sub,
        Vector3.scale, Vector3.dot, sqrtQ_one])).2

/-- C19: with `Epsilon ≥ 0`, whenever `Plane::intersects` returns `true` the vector returned by
`Plane::normal` has a negative dot product with the ray direction, and `Plane::normal` returns
the same vector for every ray and every `t`; `sqrtf` is taken exact on `norm·norm`. -/
theorem Plane.normal_faces_ray (sqrtf : K → K) (Epsilon : K) (hε : 0 ≤ Epsilon) (p : Plane K)
    (ray : Ray K) (st t : K) (hhit : (p.intersects Epsilon ray st).1 = true)
    (hlen : IsSqrt sqrtf (p.norm.dot p.norm)) :
    (p.normal sqrtf ray t).dot ray.direction < 0 ∧
      ∀ (ray' : Ray K) (t' : K), p.normal sqrtf ray' t' = p.normal sqrtf ray t := by
  refine ⟨?_, fun _ _ => rfl⟩
  have hd : p.norm.dot ray.direction > Epsilon := by
    by_contra hnot
    rw [Plane.intersects_ite, if_neg hnot] at hhit
    exact absurd hhit (by simp)
  have hpos : 0 < p.norm.dot ray.direction := lt_of_le_of_lt hε hd
  have hnorm : p.norm ≠ ⟨0, 0, 0⟩ := by
    intro h0
    rw [h0] at hpos
    simp [Vector3.dot] at hpos
  have hnn : 0 < p.norm.dot p.norm := Vector3.dot_self_pos p.norm hnorm
  obtain ⟨hs0, hs1⟩ := hlen
  have hs : 0 < sqrtf (p.norm.dot p.norm) := by
    rcases lt_or_eq_of_le hs0 with h | h
    · exact h
    · rw [← h, mul_zero] at hs1
      exact absurd hs1 (ne_of_lt hnn)
  have hval : (p.normal sqrtf ray t).dot ray.direction =
      -(p.norm.dot ray.direction / sqrtf (p.norm.dot p.norm)) := by
    simp only [Plane.normal, Vector3.normalized, Vector3.length, Vector3.scale, Vector3.dot]
    field_simp
    ring
  rw [hval]
  exact neg_neg_of_pos (div_pos hpos hs)

/-- Witness for C19: `planeFar` has the unit `norm` `(0, 0, -1)` and is hit by `rayDownZ`. -/
theorem Plane.normal_faces_ray_witness :
    (planeFar.normal sqrtQ rayDownZ 5).dot rayDownZ.direction < 0 :=
  (Plane.normal_faces_ray sqrtQ epsQ (by norm_num [epsQ]) planeFar rayDownZ 0 5
    (congrArg Prod.fst (planeFar_hit 0))
    (by norm_num [IsSqrt, planeFar, objectAt, Vector3.dot, sqrtQ_one])).1

end NormalClaims

/-! ## Primary rays and quantisation: the settled properties -/

section RayClaims

variable {K : Type} [LinearOrderedField K]

/-- C15: for a `width × height` image with both sizes positive and a pixel `(x, y)` inside it,
the `Ray` constructor computes `sx = ndcx * (width / height) * tan(fov / 2)` and
`sy = ndcy * tan(fov / 2)` with `ndcx = 2 (x + 0.5) / width - 1` and
`ndcy = 1 - 2 (y + 0.5) / height`; both lie strictly between `-1` and `1`, `ndcx` strictly
increases with `x`, `ndcy` strictly decreases with `y`, and mirrored pixels give opposite
values. -/
theorem Ray.camera_coords (tanf : K → K) (scene : Scene K) (x y : Int)
    (hw : 0 < scene.m_width) (hh : 0 < scene.m_height)
    (hx0 : 0 ≤ x) (hx : x < scene.m_width) (hy0 : 0 ≤ y) (hy : y < scene.m_height) :
    Ray.sx tanf scene x =
        ndcx scene.m_width x * ((scene.m_width : K) / (scene.m_height : K)) *
          tanf (scene.m_camera.fov / 2) ∧
      Ray.sy tanf scene y = ndcy scene.m_height y * tanf (scene.m_camera.fov / 2) ∧
      (-1 : K) < ndcx scene.m_width x ∧ (ndcx scene.m_width x : K) < 1 ∧
      (-1 : K) < ndcy scene.m_height y ∧ (ndcy scene.m_height y : K) < 1 ∧
      (∀ x' : Int, x < x' → (ndcx scene.m_width x : K) < ndcx scene.m_width x') ∧
      (∀ y' : Int, y < y' → (ndcy scene.m_height y' : K) < ndcy scene.m_height y) ∧
      (ndcx scene.m_width (scene.m_width - 1 - x) : K) = -ndcx scene.m_width x ∧
      (ndcy scene.m_height (scene.m_height - 1 - y) : K) = -ndcy scene.m_height y := by
  have hwK : (0 : K) < (scene.m_width : K) := by exact_mod_cast hw
  have hhK : (0 : K) < (scene.m_height : K) := by exact_mod_cast hh
  have hx0K : (0 : K) ≤ (x : K) := by exact_mod_cast hx0
  have hy0K : (0 : K) ≤ (y : K) := by exact_mod_cast hy0
  have hxK : (x : K) + 1 ≤ (scene.m_width : K) := by exact_mod_cast hx
  have hyK : (y : K) + 1 ≤ (scene.m_height : K) := by exact_mod_cast hy
  have hxa : (0 : K) < 2 * ((x : K) + 1 / 2) / (scene.m_width : K) :=
    div_pos (by linarith) hwK
  have hxb : 2 * ((x : K) + 1 / 2) / (scene.m_width : K) < 2 := by
    rw [div_lt_iff₀ hwK]
    linarith
  have hya : (0 : K) < 2 * ((y : K) + 1 / 2) / (scene.m_height : K) :=
    div_pos (by linarith) hhK
  have hyb : 2 * ((y : K) + 1 / 2) / (scene.m_height : K) < 2 := by
    rw [div_lt_iff₀ hhK]
    linarith
  refine ⟨?_, ?_, ?_, ?_, ?_, ?_, ?_, ?_, ?_, ?_⟩
  · simp only [Ray.sx, ndcx]
    ring
  · simp only [Ray.sy, ndcy]
    ring
  · simp only [ndcx]
    linarith
  · simp only [ndcx]
    linarith
  · simp only [ndcy]
    linarith
  · simp only [ndcy]
    linarith
  · intro x' hxx
    have hxxK : (x : K) < (x' : K) := by exact_mod_cast hxx
    have hlt : 2 * ((x : K) + 1 / 2) / (scene.m_width : K) <
        2 * ((x' : K) + 1 / 2) / (scene.m_width : K) :=
      div_lt_div_of_pos_right (by linarith) hwK
    simp only [ndcx]
    linarith
  · intro y' hyy
    have hyyK : (y : K) < (y' : K) := by exact_mod_cast hyy
    have hlt : 2 * ((y : K) + 1 / 2) / (scene.m_height : K) <
        2 * ((y' : K) + 1 / 2) / (scene.m_height : K) :=
      div_lt_div_of_pos_right (by linarith) hhK
    simp only [ndcy]
    linarith
  · simp only [ndcx]
    push_cast
    field_simp
    ring
  · simp only [ndcy]
    push_cast
    field_simp
    ring

/-- Witness for C15: pixel `(1, 2)` of the `4 × 4` image of `sceneMixed`. -/
theorem Ray.camera_coords_witness :
    Ray.sx tanUnit sceneMixed 1 =
        ndcx sceneMixed.m_width 1 * ((sceneMixed.m_width : ℚ) / (sceneMixed.m_height : ℚ)) *
          tanUnit (sceneMixed.m_camera.fov / 2) ∧
      Ray.sy tanUnit sceneMixed 2 =
        ndcy sceneMixed.m_height 2 * tanUnit (sceneMixed.m_camera.fov / 2) :=
  have h := Ray.camera_coords tanUnit sceneMixed 1 2 (by decide) (by decide) (by decide)
    (by decide) (by decide) (by decide)
  ⟨h.1, h.2.1⟩

/-- C16 as stated fails: for a camera at `(0, 0, 5)` the primary ray of pixel `(0, 0)` starts at
`(0, 0, -5)`, which is not the camera position. -/
theorem Ray.origin_not_camera_position :
    sceneEmpty.m_camera.position = ⟨0, 0, 5⟩ ∧
      (Ray.ofPixel tanUnit viewForward 0 0 sceneEmpty).origin = ⟨0, 0, -5⟩ ∧
      (Ray.ofPixel tanUnit viewForward 0 0 sceneEmpty).origin ≠ sceneEmpty.m_camera.position := by
  refine ⟨rfl, ?_, ?_⟩
  · norm_num [Ray.ofPixel, sceneEmpty, cameraBack, objectAt, Vector3.scale]
  · norm_num [Ray.ofPixel, sceneEmpty, cameraBack, objectAt, Vector3.scale]

/-- C16 (amended): the origin of the primary ray built by `Ray(x, y, scene)` is the camera
position multiplied by `-1`, for every pixel; it equals the camera position exactly when the
camera sits at the origin. -/
theorem Ray.origin_is_negated_position (tanf : K → K)
    (viewDir : Camera K → Vector4 K → Vector3 K) (x y : Int) (scene : Scene K) :
    (Ray.ofPixel tanf viewDir x y scene).origin = scene.m_camera.position.scale (-1) ∧
      (Ray.ofPixel tanf viewDir x y scene).origin =
        ⟨-scene.m_camera.position.x, -scene.m_camera.position.y, -scene.m_camera.position.z⟩ ∧
      ((Ray.ofPixel tanf viewDir x y scene).origin = scene.m_camera.position ↔
        scene.m_camera.position = ⟨0, 0, 0⟩) := by
  refine ⟨rfl, ?_, ?_⟩
  · simp [Ray.ofPixel, Vector3.scale]
  · rcases hp : scene.m_camera.position with ⟨px, py, pz⟩
    simp only [Ray.ofPixel, hp, Vector3.scale, Vector3.mk.injEq, mul_neg, mul_one]
    constructor
    · rintro ⟨h1, h2, h3⟩
      exact ⟨by linarith, by linarith, by linarith⟩
    · rintro ⟨h1, h2, h3⟩
      subst h1 h2 h3
      simp

end RayClaims

/-! ## Quantisation to bytes: the settled properties -/

section ByteClaims

variable {K : Type} [LinearOrderedField K] [FloorRing K]

theorem floatToInt_mono (a b : K) (h : a ≤ b) : floatToInt a ≤ floatToInt b := by
  unfold floatToInt
  split_ifs with ha hb hb
  · exact Int.floor_mono h
  · exact absurd (le_trans ha h) hb
  · have h1 : ⌈a⌉ ≤ 0 := Int.ceil_le.mpr (by exact_mod_cast (not_le.mp ha).le)
    have h2 : 0 ≤ ⌊b⌋ := Int.floor_nonneg.mpr hb
    exact le_trans h1 h2
  · exact Int.ceil_mono h

theorem clamp_range (v : Int) : 0 ≤ clamp v 0 255 ∧ clamp v 0 255 ≤ 255 := by
  unfold clamp
  split_ifs <;> omega

theorem clamp_mono (v w : Int) (h : v ≤ w) : clamp v 0 255 ≤ clamp w 0 255 := by
  unfold clamp
  split_ifs <;> omega

/-- C17: the byte written for a channel value `c` is `clamp(trunc(c * 255), 0, 255)`; it lies
in `[0, 255]`, is `0` for every `c ≤ 0`, is `255` for every `c ≥ 1`, and does not decrease when
`c` grows. -/
theorem toByte_clamped_monotone (c c' : K) :
    toByte c = clamp (if 0 ≤ c * 255 then ⌊c * 255⌋ else ⌈c * 255⌉) 0 255 ∧
      0 ≤ toByte c ∧ toByte c ≤ 255 ∧
      (c ≤ 0 → toByte c = 0) ∧
      (1 ≤ c → toByte c = 255) ∧
      (c ≤ c' → toByte c ≤ toByte c') := by
  refine ⟨rfl, (clamp_range _).1, (clamp_range _).2, fun h0 => ?_, fun h1 => ?_, fun hcc => ?_⟩
  · have hle : floatToInt (c * 255) ≤ 0 := by
      have h := floatToInt_mono (c * 255) 0 (by nlinarith)
      simpa [floatToInt] using h
    unfold toByte clamp
    split_ifs <;> omega
  · have hge : 255 ≤ floatToInt (c * 255) := by
      have h := floatToInt_mono 255 (c * 255) (by nlinarith)
      have h255 : floatToInt (255 : K) = 255 := by
        unfold floatToInt
        rw [if_pos (by norm_num)]
        have hcast : ((255 : Int) : K) = 255 := by norm_num
        rw [← hcast]
        exact Int.floor_intCast 255
      rwa [h255] at h
    unfold toByte clamp
    split_ifs <;> omega
  · exact clamp_mono _ _ (floatToInt_mono _ _ (by nlinarith))

/-- Witness for C17: the channel values `-1/2`, `3/2` and `1/2 ≤ 3/4`. -/
theorem toByte_clamped_monotone_witness :
    toByte (-1 / 2 : ℚ) = 0 ∧ toByte (3 / 2 : ℚ) = 255 ∧ toByte (1 / 2 : ℚ) ≤ toByte (3 / 4 : ℚ) :=
  ⟨(toByte_clamped_monotone (-1 / 2 : ℚ) 0).2.2.2.1 (by norm_num),
    (toByte_clamped_monotone (3 / 2 : ℚ) 0).2.2.2.2.1 (by norm_num),
    (toByte_clamped_monotone (1 / 2 : ℚ) (3 / 4)).2.2.2.2.2 (by norm_num)⟩

end ByteClaims

/-! ## The render loop: the settled properties -/

section ShadeLemmas

variable {K : Type} [LinearOrderedField K]

theorem set_replicate_same {α : Type} (a : α) :
    ∀ (n i : Nat), (List.replicate n a).set i a = List.replicate n a := by
  intro n
  induction n with
  | zero => intro i; simp
  | succ n ih =>
    intro i
    cases i with
    | zero => simp [List.replicate_succ]
    | succ i => simp [List.replicate_succ, ih i]

theorem shade_of_miss (sort : SortFn K) (sqrtf : K → K) (Epsilon : K) (scene : Scene K)
    (ray : Ray K) (hmiss : (Scene.intersects sort sqrtf Epsilon scene ray).ret = false) :
    shade sort sqrtf Epsilon scene ray = some (Vector3.splat 0) := by
  simp [shade, hmiss]

theorem Scene.intersects_of_empty (sort : SortFn K) (hsort : StdSortContract sort)
    (sqrtf : K → K) (Epsilon : K) (scene : Scene K) (ray : Ray K)
    (hempty : scene.m_objects = []) :
    Scene.intersects sort sqrtf Epsilon scene ray = ⟨false, -1, none⟩ := by
  rcases Scene.intersects_cases sort hsort sqrtf Epsilon scene ray with
    ⟨_, hres⟩ | ⟨k, t, _, hmem, _, _⟩
  · exact hres
  · rw [hempty] at hmem
    simp [Scene.collect] at hmem

theorem accumulateLighting_no_light (sqrtf : K → K) (ip inn : Vector3 K) :
    ∀ (objects : List (Obj K)) (ambient : Vector3 K),
      (∀ ob ∈ objects, ob.type ≠ ObjectType.TLight) →
      accumulateLighting sqrtf objects ambient ip inn = ambient := by
  intro objects
  induction objects with
  | nil => intro ambient _; rfl
  | cons ob rest ih =>
    intro ambient h
    have hob : ob.type ≠ ObjectType.TLight := h ob (List.mem_cons_self _ _)
    have hrest := ih ambient (fun o ho => h o (List.mem_cons_of_mem _ ho))
    unfold accumulateLighting at hrest ⊢
    rw [List.foldl_cons]
    cases ob with
    | light l => exact absurd rfl hob
    | object o => exact hrest
    | sphere sp => exact hrest
    | plane pl => exact hrest

theorem shade_unlit (sort : SortFn K) (hsort : StdSortContract sort) (sqrtf : K → K)
    (Epsilon : K) (scene : Scene K) (ray : Ray K)
    (hnolight : ∀ ob ∈ scene.m_objects, ob.type ≠ ObjectType.TLight)
    (hamb : scene.ambient = ⟨1, 1, 1⟩)
    (hhit : (Scene.intersects sort sqrtf Epsilon scene ray).ret = true) :
    ∃ k hit, (Scene.intersects sort sqrtf Epsilon scene ray).hitObj = some k ∧
      scene.m_objects[k]? = some hit ∧
      shade sort sqrtf Epsilon scene ray = some hit.base.color := by
  rcases Scene.intersects_outcome sort hsort sqrtf Epsilon scene ray with
    ⟨_, hres⟩ | ⟨k, t, hit, hres, hk, _, _, _⟩
  · rw [hres] at hhit
    exact absurd hhit (by simp)
  · refine ⟨k, hit, by rw [hres], hk, ?_⟩
    have hacc := accumulateLighting_no_light sqrtf (ray.at t) (hit.normal sqrtf ray t)
      scene.m_objects scene.ambient hnolight
    rw [hamb] at hacc
    simp only [shade, hres, if_true, hk, hamb, hacc, Vector3.mul, mul_one]

end ShadeLemmas

section RenderClaims

variable {K : Type} [LinearOrderedField K] [FloorRing K]

theorem toByte_zero : toByte (0 : K) = 0 := by
  simp [toByte, floatToInt, clamp]

theorem foldlM_const_some {α β : Type} (f : β → α → Option β) (b : β)
    (hf : ∀ a, f b a = some b) : ∀ l : List α, l.foldlM f b = some b := by
  intro l
  induction l with
  | nil => rfl
  | cons a rest ih =>
    rw [List.foldlM_cons, hf a]
    exact ih

/-- C11: for a pixel whose primary ray has no hit, the render loop stores the bytes `0, 0, 0`
at the pixel's offset, whatever the ambient colour of the scene; and for a scene without
objects the rendered buffer is the zero-filled buffer, for every list of tiles. -/
theorem render_miss_is_black (sort : SortFn K) (hsort : StdSortContract sort) (sqrtf : K → K)
    (Epsilon : K) (tanf : K → K) (viewDir : Camera K → Vector4 K → Vector3 K)
    (scene : Scene K) :
    (∀ (pixels : List Int) (p : Pixel),
      (Scene.intersects sort sqrtf Epsilon scene (Ray.ofPixel tanf viewDir p.x p.y scene)).ret =
        false →
      renderPixel sort sqrtf Epsilon tanf viewDir scene pixels p =
        some (((pixels.set (byteIndex (pixelOffset scene.m_width p.x p.y) 0) 0).set
          (byteIndex (pixelOffset scene.m_width p.x p.y) 1) 0).set
          (byteIndex (pixelOffset scene.m_width p.x p.y) 2) 0)) ∧
    (scene.m_objects = [] → ∀ tiles : List RenderTile,
      render sort sqrtf Epsilon tanf viewDir scene tiles =
        some (List.replicate (toSizeT (bufferLength scene.m_width scene.m_height)) 0)) := by
  have hpix : ∀ (pixels : List Int) (p : Pixel),
      (Scene.intersects sort sqrtf Epsilon scene (Ray.ofPixel tanf viewDir p.x p.y scene)).ret =
        false →
      renderPixel sort sqrtf Epsilon tanf viewDir scene pixels p =
        some (((pixels.set (byteIndex (pixelOffset scene.m_width p.x p.y) 0) 0).set
          (byteIndex (pixelOffset scene.m_width p.x p.y) 1) 0).set
          (byteIndex (pixelOffset scene.m_width p.x p.y) 2) 0) := by
    intro pixels p hmiss
    simp only [renderPixel, shade_of_miss sort sqrtf Epsilon scene _ hmiss, Option.map_some',
      writePixel, Vector3.splat, toByte_zero]
  refine ⟨hpix, fun hempty tiles => ?_⟩
  unfold render
  apply foldlM_const_some
  intro p
  rw [hpix _ p (by rw [Scene.intersects_of_empty sort hsort sqrtf Epsilon scene _ hempty])]
  simp only [set_replicate_same]

/-- Witness for C11: `sceneEmpty` has no objects and a white ambient colour; its `4 × 4` image
rendered over a single `4 × 4` tile is `48` zero bytes. -/
theorem render_miss_is_black_witness :
    render insertionSortBy sqrtQ epsQ tanUnit viewForward sceneEmpty [⟨0, 0, 4, 4⟩] =
      some (List.replicate (toSizeT (bufferLength sceneEmpty.m_width sceneEmpty.m_height)) 0) :=
  (render_miss_is_black insertionSortBy insertionSortBy_contract sqrtQ epsQ tanUnit viewForward
    sceneEmpty).2 rfl [⟨0, 0, 4, 4⟩]

/-- C12: in a scene without Light objects and with ambient colour `(1, 1, 1)`, for every pixel
whose primary ray is reported as a hit the colour computed is exactly the `color` of the hit
object, and the three bytes stored are the quantisation of that colour. -/
theorem render_unlit_is_albedo (sort : SortFn K) (hsort : StdSortContract sort) (sqrtf : K → K)
    (Epsilon : K) (tanf : K → K) (viewDir : Camera K → Vector4 K → Vector3 K)
    (scene : Scene K) (p : Pixel)
    (hnolight : ∀ ob ∈ scene.m_objects, ob.type ≠ ObjectType.TLight)
    (hamb : scene.ambient = ⟨1, 1, 1⟩)
    (hhit : (Scene.intersects sort sqrtf Epsilon scene
      (Ray.ofPixel tanf viewDir p.x p.y scene)).ret = true) :
    ∃ k hit,
      (Scene.intersects sort sqrtf Epsilon scene
        (Ray.ofPixel tanf viewDir p.x p.y scene)).hitObj = some k ∧
      scene.m_objects[k]? = some hit ∧
      shade sort sqrtf Epsilon scene (Ray.ofPixel tanf viewDir p.x p.y scene) =
        some hit.base.color ∧
      ∀ pixels : List Int,
        renderPixel sort sqrtf Epsilon tanf viewDir scene pixels p =
          some (((pixels.set (byteIndex (pixelOffset scene.m_width p.x p.y) 0)
              (toByte hit.base.color.x)).set
            (byteIndex (pixelOffset scene.m_width p.x p.y) 1) (toByte hit.base.color.y)).set
            (byteIndex (pixelOffset scene.m_width p.x p.y) 2) (toByte hit.base.color.z)) := by
  obtain ⟨k, hit, hk, hobj, hshade⟩ :=
    shade_unlit sort hsort sqrtf Epsilon scene _ hnolight hamb hhit
  refine ⟨k, hit, hk, hobj, hshade, fun pixels => ?_⟩
  simp only [renderPixel, hshade, Option.map_some', writePixel]

theorem sceneUnlit_pixel_hit :
    Scene.intersects insertionSortBy sqrtQ epsQ sceneUnlit
      (Ray.ofPixel tanUnit viewForward 1 2 sceneUnlit) = ⟨true, 5, some 0⟩ := by
  have hplane : ∀ st : ℚ, (Obj.plane planeFarRed).intersects sqrtQ epsQ
      (Ray.ofPixel tanUnit viewForward 1 2 sceneUnlit) st = (true, 5) := by
    intro st
    norm_num [Obj.intersects, Plane.intersects, planeFarRed, planeFar, objectAt, Ray.ofPixel,
      Ray.sx, Ray.sy, tanUnit, viewForward, sceneUnlit, cameraQ, epsQ, Vector3.dot, Vector3.sub,
      Vector3.scale]
  have hcollect : Scene.collect sqrtQ epsQ (Ray.ofPixel tanUnit viewForward 1 2 sceneUnlit)
      sceneUnlit.m_objects 0 0 = [(0, 5)] := by
    have hobjs : sceneUnlit.m_objects = [Obj.plane planeFarRed] := rfl
    rw [hobjs]
    simp [Scene.collect, Obj.type, hplane]
  simp only [Scene.intersects, hcollect, insertionSortBy]
  norm_num

/-- Witness for C12: `sceneUnlit` has no light and a white ambient colour, and the primary ray
of pixel `(1, 2)` hits its red plane. -/
theorem render_unlit_is_albedo_witness :
    ∃ k hit,
      (Scene.intersects insertionSortBy sqrtQ epsQ sceneUnlit
        (Ray.ofPixel tanUnit viewForward 1 2 sceneUnlit)).hitObj = some k ∧
      sceneUnlit.m_objects[k]? = some hit ∧
      shade insertionSortBy sqrtQ epsQ sceneUnlit
        (Ray.ofPixel tanUnit viewForward 1 2 sceneUnlit) = some hit.base.color :=
  have h := render_unlit_is_albedo insertionSortBy insertionSortBy_contract sqrtQ epsQ tanUnit
    viewForward sceneUnlit ⟨1, 2⟩ (by simp [sceneUnlit, Obj.type]) rfl
    (by rw [sceneUnlit_pixel_hit])
  h.imp fun _ hk => hk.imp fun _ hh => ⟨hh.1, hh.2.1, hh.2.2.1⟩

end RenderClaims

/-! ## Hits behind the ray origin -/

section BehindClaims

theorem sphereBehind_hit (st : ℚ) :
    (Obj.sphere sphereBehind).intersects sqrtQ epsQ rayDownZ st = (true, -4) := by
  norm_num [Obj.intersects, Sphere.intersects, sphereBehind, objectAt, rayDownZ, Vector3.dot,
    Vector3.sub, sqrtQ_four]

/-- C18: there are two spheres and a ray with non-zero direction such that the first sphere lies
wholly in front of the ray origin and reports a hit at a positive `t`, the second lies wholly
behind the origin, and `Scene::intersects` (with any `std::sort` meeting the standard's
contract) returns `true` with a negative `t` and the sphere behind the origin as hit object. -/
theorem Scene.intersects_returns_sphere_behind :
    ∃ (front behind : Sphere ℚ) (ray : Ray ℚ),
      ray.direction ≠ ⟨0, 0, 0⟩ ∧
      (∀ q : Vector3 ℚ,
        (q.sub front.position).dot (q.sub front.position) ≤ front.radius * front.radius →
        0 < (q.sub ray.origin).dot ray.direction) ∧
      (∀ q : Vector3 ℚ,
        (q.sub behind.position).dot (q.sub behind.position) ≤ behind.radius * behind.radius →
        (q.sub ray.origin).dot ray.direction < 0) ∧
      (∃ t : ℚ, 0 < t ∧ ∀ st, front.intersects sqrtQ ray st = (true, t)) ∧
      ∀ sort : SortFn ℚ, StdSortContract sort →
        ∃ t : ℚ, t < 0 ∧
          Scene.intersects sort sqrtQ epsQ
            ⟨[Obj.sphere front, Obj.sphere behind], cameraQ, 4, 4, ⟨0, 0, 0⟩⟩ ray =
            ⟨true, t, some 1⟩ := by
  refine ⟨sphereNear, sphereBehind, rayDownZ, rayDownZ_direction_ne, ?_, ?_,
    ⟨2, by norm_num, sphereNear_hit⟩, ?_⟩
  · rintro ⟨qx, qy, qz⟩ hq
    simp only [sphereNear, objectAt, rayDownZ, Vector3.sub, Vector3.dot] at hq ⊢
    nlinarith [mul_self_nonneg (qx - 0), mul_self_nonneg (qy - 0), mul_self_nonneg (qz + 4)]
  · rintro ⟨qx, qy, qz⟩ hq
    simp only [sphereBehind, objectAt, rayDownZ, Vector3.sub, Vector3.dot] at hq ⊢
    nlinarith [mul_self_nonneg (qx - 0), mul_self_nonneg (qy - 0), mul_self_nonneg (qz - 4)]
  · intro sort hsort
    refine ⟨-4, by norm_num, ?_⟩
    rcases Scene.intersects_outcome sort hsort sqrtQ epsQ
        ⟨[Obj.sphere sphereNear, Obj.sphere sphereBehind], cameraQ, 4, 4, ⟨0, 0, 0⟩⟩ rayDownZ with
      ⟨hnone, _⟩ | ⟨k, t, ob, hres, hk, _, hrep, hmin⟩
    · have h := hnone 0 (Obj.sphere sphereNear) 0 rfl (by simp [Obj.type])
      rw [sphereNear_hit] at h
      exact absurd h (by simp)
    · have hle : t ≤ -4 := by
        have h := hmin 1 (Obj.sphere sphereBehind) 0 rfl (by simp [Obj.type])
          (by rw [sphereBehind_hit])
        rwa [sphereBehind_hit] at h
      match k, hk with
      | 0, hk =>
        have hob : ob = Obj.sphere sphereNear := by simpa using hk.symm
        have h2 := hrep 0
        rw [hob, sphereNear_hit] at h2
        have ht : (2 : ℚ) = t := (Prod.mk.inj h2).2
        rw [← ht] at hle
        exact absurd hle (by norm_num)
      | 1, hk =>
        have hob : ob = Obj.sphere sphereBehind := by simpa using hk.symm
        have h2 := hrep 0
        rw [hob, sphereBehind_hit] at h2
        have ht : (-4 : ℚ) = t := (Prod.mk.inj h2).2
        rw [hres, ← ht]
      | k + 2, hk => simp at hk

end BehindClaims

/-! ## The tile grid -/

section GridClaims

theorem tileRow_eq_map (width tileSize y : Int) (hts : 0 < tileSize)
    (hb : width + tileSize ≤ 2147483648) :
    ∀ (n fuel : Nat) (x : Int), 0 ≤ x → width ≤ x + (n : Int) * tileSize →
      (0 < n → x + ((n : Int) - 1) * tileSize < width) → n < fuel →
      tileRow fuel width tileSize y x =
        some ((List.range n).map (fun (i : Nat) =>
          (⟨x + Int.ofNat i * tileSize, y, tileSize, tileSize⟩ : RenderTile))) := by
  intro n
  induction n with
  | zero =>
    intro fuel x _ h1 _ hfuel
    obtain ⟨f, rfl⟩ : ∃ f, fuel = f + 1 := ⟨fuel - 1, by omega⟩
    have hx : ¬ x < width := by
      simp only [Nat.cast_zero, zero_mul, add_zero] at h1
      omega
    simp [tileRow, hx]
  | succ n ih =>
    intro fuel x hx0 h1 h2 hfuel
    obtain ⟨f, rfl⟩ : ∃ f, fuel = f + 1 := ⟨fuel - 1, by omega⟩
    have hn0 : 0 ≤ (n : Int) * tileSize := mul_nonneg (Int.ofNat_nonneg n) hts.le
    have h2' : x + (n : Int) * tileSize < width := by
      have := h2 (Nat.succ_pos n)
      push_cast at this
      linarith
    have hx : x < width := by linarith
    have h1' : width ≤ x + tileSize + (n : Int) * tileSize := by
      push_cast at h1
      linarith
    have hrec := ih f (x + tileSize) (by omega) h1'
      (fun _ => by nlinarith) (by omega)
    unfold tileRow
    rw [if_pos hx, wrapInt_of_range (x + tileSize) (by omega) (by omega), hrec,
      Option.map_some', List.range_succ_eq_map, List.map_cons, List.map_map]
    congr 2
    · simp
    · apply List.map_congr_left
      intro i _
      simp only [Function.comp, Int.ofNat_eq_coe, Nat.succ_eq_add_one, Nat.cast_add,
        Nat.cast_one, RenderTile.mk.injEq, and_true]
      ring

theorem tileRows_eq_flatMap (width height tileSize : Int) (hts : 0 < tileSize)
    (hbw : width + tileSize ≤ 2147483648) (hbh : height + tileSize ≤ 2147483648) (nx : Nat)
    (hnx : width ≤ (nx : Int) * tileSize)
    (hnx' : 0 < nx → ((nx : Int) - 1) * tileSize < width) :
    ∀ (m fuel : Nat) (y : Int), 0 ≤ y → height ≤ y + (m : Int) * tileSize →
      (0 < m → y + ((m : Int) - 1) * tileSize < height) → nx + m + 1 < fuel →
      tileRows fuel width height tileSize y =
        some ((List.range m).flatMap (fun (j : Nat) =>
          (List.range nx).map (fun (i : Nat) =>
            (⟨Int.ofNat i * tileSize, y + Int.ofNat j * tileSize, tileSize, tileSize⟩ :
              RenderTile)))) := by
  intro m
  induction m with
  | zero =>
    intro fuel y _ h1 _ hfuel
    obtain ⟨f, rfl⟩ : ∃ f, fuel = f + 1 := ⟨fuel - 1, by omega⟩
    have hy : ¬ y < height := by
      simp only [Nat.cast_zero, zero_mul, add_zero] at h1
      omega
    simp [tileRows, hy]
  | succ m ih =>
    intro fuel y hy0 h1 h2 hfuel
    obtain ⟨f, rfl⟩ : ∃ f, fuel = f + 1 := ⟨fuel - 1, by omega⟩
    have hm0 : 0 ≤ (m : Int) * tileSize := mul_nonneg (Int.ofNat_nonneg m) hts.le
    have h2' : y + (m : Int) * tileSize < height := by
      have := h2 (Nat.succ_pos m)
      push_cast at this
      linarith
    have hy : y < height := by linarith
    have h1' : height ≤ y + tileSize + (m : Int) * tileSize := by
      push_cast at h1
      linarith
    have hrow := tileRow_eq_map width tileSize y hts hbw nx f 0 (le_refl _) (by linarith)
      (fun h => by have := hnx' h; linarith) (by omega)
    have hrec := ih f (y + tileSize) (by omega) h1' (fun _ => by nlinarith) (by omega)
    unfold tileRows
    rw [if_pos hy, hrow, wrapInt_of_range (y + tileSize) (by omega) (by omega)]
    simp only [hrec, Option.map_some', List.range_succ_eq_map, List.flatMap_cons,
      List.flatMap_map, Option.some.injEq]
    congr 1
    · apply List.map_congr_left
      intro i _
      simp
    · congr 1
      funext j
      apply List.map_congr_left
      intro i _
      simp only [Function.comp, Int.ofNat_eq_coe, Nat.succ_eq_add_one, Nat.cast_add,
        Nat.cast_one, RenderTile.mk.injEq, true_and, and_true]
      ring

theorem ceil_count (a b : Int) (ha : 0 < a) (hb : 0 < b) :
    a ≤ ((⌈(a : ℚ) / (b : ℚ)⌉₊ : Nat) : Int) * b ∧
      (0 < ⌈(a : ℚ) / (b : ℚ)⌉₊ → (((⌈(a : ℚ) / (b : ℚ)⌉₊ : Nat) : Int) - 1) * b < a) := by
  have hbQ : (0 : ℚ) < (b : ℚ) := by exact_mod_cast hb
  have haQ : (0 : ℚ) < (a : ℚ) := by exact_mod_cast ha
  have h1 : (a : ℚ) / (b : ℚ) ≤ (⌈(a : ℚ) / (b : ℚ)⌉₊ : ℚ) := Nat.le_ceil _
  have h2 : (⌈(a : ℚ) / (b : ℚ)⌉₊ : ℚ) < (a : ℚ) / (b : ℚ) + 1 :=
    Nat.ceil_lt_add_one (div_pos haQ hbQ).le
  constructor
  · have h : (a : ℚ) ≤ (⌈(a : ℚ) / (b : ℚ)⌉₊ : ℚ) * (b : ℚ) := (div_le_iff₀ hbQ).mp h1
    exact_mod_cast h
  · intro _
    have h : ((⌈(a : ℚ) / (b : ℚ)⌉₊ : ℚ) - 1) * (b : ℚ) < (a : ℚ) :=
      (lt_div_iff₀ hbQ).mp (by linarith)
    exact_mod_cast h

theorem generateTiles_eq_grid (width height tileSize : Int) (hw : 0 < width) (hh : 0 < height)
    (hts : 0 < tileSize) (hbw : width + tileSize ≤ 2147483648)
    (hbh : height + tileSize ≤ 2147483648) (fuel : Nat)
    (hfuel : ⌈(width : ℚ) / (tileSize : ℚ)⌉₊ + ⌈(height : ℚ) / (tileSize : ℚ)⌉₊ + 1 < fuel) :
    generateTiles fuel width height tileSize =
      some (tileGrid ⌈(width : ℚ) / (tileSize : ℚ)⌉₊ ⌈(height : ℚ) / (tileSize : ℚ)⌉₊
        tileSize) := by
  obtain ⟨hx1, hx2⟩ := ceil_count width tileSize hw hts
  obtain ⟨hy1, hy2⟩ := ceil_count height tileSize hh hts
  have h := tileRows_eq_flatMap width height tileSize hts hbw hbh _ hx1 hx2 _ fuel 0
    (le_refl _) (by linarith) (fun hpos => by have := hy2 hpos; linarith) hfuel
  simp only [zero_add] at h
  exact h

theorem tileGrid_succ (nx ny : Nat) (tileSize : Int) :
    tileGrid nx (ny + 1) tileSize =
      tileGrid nx ny tileSize ++
        (List.range nx).map (fun (i : Nat) =>
          (⟨Int.ofNat i * tileSize, Int.ofNat ny * tileSize, tileSize, tileSize⟩ :
            RenderTile)) := by
  simp [tileGrid, List.range_succ, List.flatMap_append]

theorem tileGrid_length (nx : Nat) (tileSize : Int) :
    ∀ ny : Nat, (tileGrid nx ny tileSize).length = nx * ny := by
  intro ny
  induction ny with
  | zero => simp [tileGrid]
  | succ ny ih =>
    rw [tileGrid_succ, List.length_append, ih, List.length_map, List.length_range]
    ring

theorem tileGrid_getElem? (nx : Nat) (tileSize : Int) :
    ∀ (ny k : Nat), k < nx * ny →
      (tileGrid nx ny tileSize)[k]? =
        some ⟨Int.ofNat (k % nx) * tileSize, Int.ofNat (k / nx) * tileSize, tileSize,
          tileSize⟩ := by
  intro ny
  induction ny with
  | zero => intro k hk; simp at hk
  | succ ny ih =>
    intro k hk
    rw [tileGrid_succ]
    by_cases hlt : k < nx * ny
    · rw [List.getElem?_append_left (by rw [tileGrid_length]; exact hlt)]
      exact ih k hlt
    · have hge : nx * ny ≤ k := not_lt.mp hlt
      have hk' : k - nx * ny < nx := by
        have : nx * (ny + 1) = nx * ny + nx := by ring
        omega
      have hnx : 0 < nx := by omega
      rw [List.getElem?_append_right (by rw [tileGrid_length]; exact hge), tileGrid_length,
        List.getElem?_map, List.getElem?_range hk', Option.map_some']
      have hdiv : k / nx = ny :=
        Nat.div_eq_of_lt_le (by rw [Nat.mul_comm]; exact hge)
          (by rw [Nat.mul_comm]; exact hk)
      have hmod : k % nx = k - nx * ny := by
        have := Nat.div_add_mod k nx
        rw [hdiv] at this
        omega
      rw [hdiv, hmod]

theorem tileRow_none_of_zero (width y : Int) (hw : 0 < width) :
    ∀ fuel : Nat, tileRow fuel width 0 y 0 = none := by
  intro fuel
  induction fuel with
  | zero => rfl
  | succ fuel ih =>
    unfold tileRow
    have h0 : wrapInt (0 + 0) = 0 := by decide
    rw [if_pos hw, h0, ih]
    rfl

theorem tileRow_cycle (y : Int) :
    ∀ (fuel : Nat) (x : Int), x % 1073741824 = 0 → -2147483648 ≤ x → x < 2147483648 →
      tileRow fuel 2147483647 1073741824 y x = none := by
  intro fuel
  induction fuel with
  | zero => intro x _ _ _; rfl
  | succ fuel ih =>
    intro x hmod hlo hhi
    have hx : x < 2147483647 := by omega
    unfold tileRow
    rw [if_pos hx, ih (wrapInt (x + 1073741824)) (by unfold wrapInt; omega)
      (wrapInt_range _).1 (wrapInt_range _).2]
    rfl

/-- C20 as stated fails on both counts. With `width = 2147483647`, `height = 1` and
`tileSize = 1073741824` the 32-bit loop variable `x` takes the values `0`, `1073741824`,
`-2147483648`, `-1073741824`, `0`, ... and never reaches `width`, so the loops do not terminate
although `tileSize > 0`. With `width = height = 1` and `tileSize = -1073741824` the variables
take the values `0`, `-1073741824`, `-2147483648` and then wrap to `1073741824`, so the loops
terminate with nine tiles although `tileSize ≤ 0`. -/
theorem generateTiles_wraps :
    wrapInt (1073741824 + 1073741824) = -2147483648 ∧
      wrapInt (-2147483648 + -1073741824) = 1073741824 ∧
      generateTiles 20 1 1 (-1073741824) = some
        [⟨0, 0, -1073741824, -1073741824⟩,
          ⟨-1073741824, 0, -1073741824, -1073741824⟩,
          ⟨-2147483648, 0, -1073741824, -1073741824⟩,
          ⟨0, -1073741824, -1073741824, -1073741824⟩,
          ⟨-1073741824, -1073741824, -1073741824, -1073741824⟩,
          ⟨-2147483648, -1073741824, -1073741824, -1073741824⟩,
          ⟨0, -2147483648, -1073741824, -1073741824⟩,
          ⟨-1073741824, -2147483648, -1073741824, -1073741824⟩,
          ⟨-2147483648, -2147483648, -1073741824, -1073741824⟩] ∧
      ∀ fuel : Nat, generateTiles fuel 2147483647 1 1073741824 = none := by
  refine ⟨by decide, by decide, by decide, fun fuel => ?_⟩
  cases fuel with
  | zero => rfl
  | succ fuel =>
    unfold generateTiles tileRows
    rw [if_pos (by decide), tileRow_cycle 0 fuel 0 (by decide) (by decide) (by decide)]

/-- C20 (amended): for positive `width` and `height`: when `tileSize > 0` and the loop
variables cannot overflow (`width + tileSize ≤ 2^31` and `height + tileSize ≤ 2^31`), the tile
loops terminate (any fuel above `nx + ny + 1` yields the result) with exactly `nx * ny` tiles,
where `nx = ceil(width / tileSize)` and `ny = ceil(height / tileSize)`; the tiles come in
row-major order, tile number `k` being the `tileSize × tileSize` tile with origin
`((k mod nx) * tileSize, (k div nx) * tileSize)`, so the first one is at `(0, 0)`; when
`tileSize = 0` the loops never finish, whatever the fuel. -/
theorem generateTiles_row_major (width height tileSize : Int) (hw : 0 < width)
    (hh : 0 < height) :
    (0 < tileSize → width + tileSize ≤ 2147483648 → height + tileSize ≤ 2147483648 →
      (∀ fuel : Nat,
        ⌈(width : ℚ) / (tileSize : ℚ)⌉₊ + ⌈(height : ℚ) / (tileSize : ℚ)⌉₊ + 1 < fuel →
        generateTiles fuel width height tileSize =
          some (tileGrid ⌈(width : ℚ) / (tileSize : ℚ)⌉₊ ⌈(height : ℚ) / (tileSize : ℚ)⌉₊
            tileSize)) ∧
      (tileGrid ⌈(width : ℚ) / (tileSize : ℚ)⌉₊ ⌈(height : ℚ) / (tileSize : ℚ)⌉₊
          tileSize).length =
        ⌈(width : ℚ) / (tileSize : ℚ)⌉₊ * ⌈(height : ℚ) / (tileSize : ℚ)⌉₊ ∧
      (∀ k : Nat,
        k < ⌈(width : ℚ) / (tileSize : ℚ)⌉₊ * ⌈(height : ℚ) / (tileSize : ℚ)⌉₊ →
        (tileGrid ⌈(width : ℚ) / (tileSize : ℚ)⌉₊ ⌈(height : ℚ) / (tileSize : ℚ)⌉₊
            tileSize)[k]? =
          some ⟨Int.ofNat (k % ⌈(width : ℚ) / (tileSize : ℚ)⌉₊) * tileSize,
            Int.ofNat (k / ⌈(width : ℚ) / (tileSize : ℚ)⌉₊) * tileSize, tileSize, tileSize⟩) ∧
      (tileGrid ⌈(width : ℚ) / (tileSize : ℚ)⌉₊ ⌈(height : ℚ) / (tileSize : ℚ)⌉₊
          tileSize)[0]? = some ⟨0, 0, tileSize, tileSize⟩) ∧
    (tileSize = 0 → ∀ fuel : Nat, generateTiles fuel width height tileSize = none) := by
  constructor
  · intro hts hbw hbh
    have hwQ : (0 : ℚ) < (width : ℚ) / (tileSize : ℚ) :=
      div_pos (by exact_mod_cast hw) (by exact_mod_cast hts)
    have hhQ : (0 : ℚ) < (height : ℚ) / (tileSize : ℚ) :=
      div_pos (by exact_mod_cast hh) (by exact_mod_cast hts)
    have hnx : 0 < ⌈(width : ℚ) / (tileSize : ℚ)⌉₊ := Nat.ceil_pos.mpr hwQ
    have hny : 0 < ⌈(height : ℚ) / (tileSize : ℚ)⌉₊ := Nat.ceil_pos.mpr hhQ
    refine ⟨fun fuel hfuel =>
        generateTiles_eq_grid width height tileSize hw hh hts hbw hbh fuel hfuel,
      tileGrid_length _ _ _, fun k hk => tileGrid_getElem? _ _ _ k hk, ?_⟩
    rw [tileGrid_getElem? _ _ _ 0 (Nat.mul_pos hnx hny)]
    simp
  · intro hts fuel
    subst hts
    cases fuel with
    | zero => rfl
    | succ fuel =>
      unfold generateTiles tileRows
      rw [if_pos hh, tileRow_none_of_zero width 0 hw fuel]

/-- Witness for C20 (amended): a `5 × 3` image with `tileSize = 2` (terminating) and with
`tileSize = 0` (never finishing). -/
theorem generateTiles_row_major_witness :
    generateTiles 10 5 3 2 =
        some (tileGrid ⌈((5 : Int) : ℚ) / ((2 : Int) : ℚ)⌉₊ ⌈((3 : Int) : ℚ) / ((2 : Int) : ℚ)⌉₊
          2) ∧
      generateTiles 10 5 3 0 = none :=
  ⟨((generateTiles_row_major 5 3 2 (by decide) (by decide)).1 (by decide) (by decide)
      (by decide)).1 10 (by
      have h1 : ⌈((5 : Int) : ℚ) / ((2 : Int) : ℚ)⌉₊ ≤ 3 := Nat.ceil_le.mpr (by norm_num)
      have h2 : ⌈((3 : Int) : ℚ) / ((2 : Int) : ℚ)⌉₊ ≤ 2 := Nat.ceil_le.mpr (by norm_num)
      omega),
    (generateTiles_row_major 5 3 0 (by decide) (by decide)).2 rfl 10⟩

end GridClaims

end Beamy
